import Mathlib

/-!
Shallow embedding of the step-resolution / type-substitution / literal-encoding
pipeline of `crates/aptos-script-compose/src/main.rs`, together with theorems
settling the behavioural claims about it.

Conventions of the embedding:
* Rust `Vec<char>` becomes `List Char`; `chars.get(i)` becomes `List.get?`.
* Rust `while` loops become fuel-based structural recursion; the fuel is always
  chosen at the call site exactly large enough (each loop advances its index by
  at least one per iteration, so `chars.length` fuel suffices), so the fueled
  function computes the same result as the Rust loop.
* `Result<T>` becomes `Except ComposeError T` with a structured error type in
  place of the Rust `anyhow` message strings; each error constructor records
  exactly the data interpolated into the corresponding Rust message.
* JSON values (`serde_json::Value`) become the inductive `JValue`; JSON numbers
  are modelled as integers (the claims under study only involve integral
  literals, and `serde_json::Number::to_string` on an integer is its decimal
  representation, matching `Int.repr`).
* Machine integers are `Nat`/`Int` with explicit range checks where the Rust
  code range-checks (`u64::from_str` etc.).
-/

set_option maxRecDepth 4000

namespace AptosScriptCompose

/-! ## Character helpers (main.rs: `is_type_param_ident_char`) -/

/-- `is_type_param_ident_char` from main.rs: ASCII alphanumeric or underscore. -/
def is_type_param_ident_char (ch : Char) : Bool :=
  ch.isAlphanum || ch == '_'

/-- `chars.get(i).is_some_and(char::is_ascii_digit)` from main.rs. -/
def char_at_is_digit (chars : List Char) (i : Nat) : Bool :=
  match chars.get? i with
  | some c => c.isDigit
  | none => false

/-! ## Placeholder scanning (main.rs: `type_param_placeholder_span`) -/

/-- The `while chars.get(end).is_some_and(char::is_ascii_digit) { end += 1 }`
loop of `type_param_placeholder_span`, with explicit fuel. -/
def digit_run_end_go (chars : List Char) : Nat → Nat → Nat
  | 0, e => e
  | fuel + 1, e => if char_at_is_digit chars e then digit_run_end_go chars fuel (e + 1) else e

/-- End of the maximal ASCII-digit run starting at `e`.  The loop advances `e`
only while a digit is present at `e` (hence only while `e < chars.length`), so
`chars.length - e` fuel is exact. -/
def digit_run_end (chars : List Char) (e : Nat) : Nat :=
  digit_run_end_go chars (chars.length - e) e

/-- `type_param_placeholder_span` from main.rs: recognizes a generic
placeholder token `T<digits>` starting at `start`, returning
`(digits_start, end)` of the digit run, with identifier-boundary checks on the
neighbouring characters. -/
def type_param_placeholder_span (chars : List Char) (start : Nat) : Option (Nat × Nat) :=
  if chars.get? start ≠ some 'T' then none
  else if ! char_at_is_digit chars (start + 1) then none
  else if ! (start == 0 || ! is_type_param_ident_char ((chars.get? (start - 1)).getD ' ')) then
    none
  else if ! (digit_run_end chars (start + 1) == chars.length ||
      ! is_type_param_ident_char ((chars.get? (digit_run_end chars (start + 1))).getD ' ')) then
    none
  else some (start + 1, digit_run_end chars (start + 1))

/-- The contiguous slice `chars[a..b]` of a `Vec<char>`. -/
def slice (chars : List Char) (a b : Nat) : List Char :=
  (chars.drop a).take (b - a)

/-- Value of the decimal digit slice `chars[digits_start..end]`, as parsed by
`str::parse::<usize>` in main.rs.  (`parse` fails only on `usize` overflow, in
which case the Rust code leaves the token untouched — identically to an index
beyond the end of the type-argument list, so the unbounded `Nat` value is an
observationally faithful model.) -/
def digits_to_nat (ds : List Char) : Nat :=
  ds.foldl (fun acc c => acc * 10 + (c.toNat - 48)) 0

/-! ## Substitution (main.rs: `substitute_type_parameters`) -/

/-- The scanning loop of `substitute_type_parameters`, with explicit fuel.
At a recognized placeholder the token is replaced by the indexed type argument
when the index is in range and copied verbatim otherwise; elsewhere the current
character is copied. -/
def substitute_go (chars : List Char) (type_arguments : List String) : Nat → Nat → List Char
  | 0, _ => []
  | fuel + 1, i =>
    match type_param_placeholder_span chars i with
    | some (digits_start, e) =>
      (match type_arguments.get? (digits_to_nat (slice chars digits_start e)) with
       | some type_arg => type_arg.toList
       | none => slice chars i e) ++ substitute_go chars type_arguments fuel e
    | none =>
      match chars.get? i with
      | some c => c :: substitute_go chars type_arguments fuel (i + 1)
      | none => []

/-- `substitute_type_parameters` from main.rs. -/
def substitute_type_parameters (param : String) (type_arguments : List String) : String :=
  String.mk (substitute_go param.toList type_arguments param.toList.length 0)

/-! ## Residual-placeholder scan (main.rs: `contains_unresolved_type_param`) -/

/-- The scanning loop of `contains_unresolved_type_param`, with explicit
fuel: reports `true` as soon as a placeholder span is found. -/
def contains_go (chars : List Char) : Nat → Nat → Bool
  | 0, _ => false
  | fuel + 1, i =>
    if i < chars.length then
      match type_param_placeholder_span chars i with
      | some (_, e) => if i < e then true else contains_go chars fuel e
      | none => contains_go chars fuel (i + 1)
    else false

/-- `contains_unresolved_type_param` from main.rs. -/
def contains_unresolved_type_param (param : String) : Bool :=
  contains_go param.toList param.toList.length 0

example :
    substitute_type_parameters "0x1::object::Object<T0>" ["0x1::fungible_asset::Metadata"] =
      "0x1::object::Object<0x1::fungible_asset::Metadata>" := by decide

example : substitute_type_parameters "0x1::my::T0Coin<T0>" ["u8"] = "0x1::my::T0Coin<u8>" := by
  decide

example : substitute_type_parameters "vector<T1>" ["u8", "0x1::my::T0Coin"] =
    "vector<0x1::my::T0Coin>" := by decide

example : contains_unresolved_type_param "vector<T1>" = true := by decide

example : contains_unresolved_type_param "0x1::my::T0Coin" = false := by decide

example : substitute_type_parameters "u64" [] = "u64" := by decide

/-! ## JSON values and module ids -/

/-- `serde_json::Value`.  Numbers are modelled as integers: every numeric
literal exercised by the pipeline's claims is integral, and
`serde_json::Number::to_string` on an integer equals `Int` decimal printing. -/
inductive JValue where
  | null
  | bool (b : Bool)
  | num (n : Int)
  | str (s : String)
  | arr (items : List JValue)
  | obj (fields : List (String × JValue))

/-! Structural boolean equality on JSON values (used only to build decidable
equality, which Lean cannot derive for this nested inductive). -/

mutual

def JValue.beq : JValue → JValue → Bool
  | .null, .null => true
  | .bool x, .bool y => x == y
  | .num x, .num y => x == y
  | .str x, .str y => x == y
  | .arr xs, .arr ys => JValue.beqList xs ys
  | .obj xs, .obj ys => JValue.beqObj xs ys
  | _, _ => false

def JValue.beqList : List JValue → List JValue → Bool
  | [], [] => true
  | x :: xs, y :: ys => JValue.beq x y && JValue.beqList xs ys
  | _, _ => false

def JValue.beqObj : List (String × JValue) → List (String × JValue) → Bool
  | [], [] => true
  | (k1, v1) :: xs, (k2, v2) :: ys => k1 == k2 && JValue.beq v1 v2 && JValue.beqObj xs ys
  | _, _ => false

end

mutual

theorem JValue.eq_of_beq : ∀ {a b : JValue}, JValue.beq a b = true → a = b
  | .null, .null, _ => rfl
  | .bool x, .bool y, h => by
    simp only [JValue.beq, beq_iff_eq] at h
    rw [h]
  | .num x, .num y, h => by
    simp only [JValue.beq, beq_iff_eq] at h
    rw [h]
  | .str x, .str y, h => by
    simp only [JValue.beq, beq_iff_eq] at h
    rw [h]
  | .arr xs, .arr ys, h =>
    congrArg JValue.arr (JValue.eqList_of_beq (by simpa only [JValue.beq] using h))
  | .obj xs, .obj ys, h =>
    congrArg JValue.obj (JValue.eqObj_of_beq (by simpa only [JValue.beq] using h))
  | .null, .bool _, h => Bool.noConfusion h
  | .null, .num _, h => Bool.noConfusion h
  | .null, .str _, h => Bool.noConfusion h
  | .null, .arr _, h => Bool.noConfusion h
  | .null, .obj _, h => Bool.noConfusion h
  | .bool _, .null, h => Bool.noConfusion h
  | .bool _, .num _, h => Bool.noConfusion h
  | .bool _, .str _, h => Bool.noConfusion h
  | .bool _, .arr _, h => Bool.noConfusion h
  | .bool _, .obj _, h => Bool.noConfusion h
  | .num _, .null, h => Bool.noConfusion h
  | .num _, .bool _, h => Bool.noConfusion h
  | .num _, .str _, h => Bool.noConfusion h
  | .num _, .arr _, h => Bool.noConfusion h
  | .num _, .obj _, h => Bool.noConfusion h
  | .str _, .null, h => Bool.noConfusion h
  | .str _, .bool _, h => Bool.noConfusion h
  | .str _, .num _, h => Bool.noConfusion h
  | .str _, .arr _, h => Bool.noConfusion h
  | .str _, .obj _, h => Bool.noConfusion h
  | .arr _, .null, h => Bool.noConfusion h
  | .arr _, .bool _, h => Bool.noConfusion h
  | .arr _, .num _, h => Bool.noConfusion h
  | .arr _, .str _, h => Bool.noConfusion h
  | .arr _, .obj _, h => Bool.noConfusion h
  | .obj _, .null, h => Bool.noConfusion h
  | .obj _, .bool _, h => Bool.noConfusion h
  | .obj _, .num _, h => Bool.noConfusion h
  | .obj _, .str _, h => Bool.noConfusion h
  | .obj _, .arr _, h => Bool.noConfusion h

theorem JValue.eqList_of_beq : ∀ {xs ys : List JValue}, JValue.beqList xs ys = true → xs = ys
  | [], [], _ => rfl
  | x :: xs, y :: ys, h => by
    simp only [JValue.beqList, Bool.and_eq_true] at h
    rw [JValue.eq_of_beq h.1, JValue.eqList_of_beq h.2]
  | [], _ :: _, h => Bool.noConfusion h
  | _ :: _, [], h => Bool.noConfusion h

theorem JValue.eqObj_of_beq :
    ∀ {xs ys : List (String × JValue)}, JValue.beqObj xs ys = true → xs = ys
  | [], [], _ => rfl
  | (k1, v1) :: xs, (k2, v2) :: ys, h => by
    simp only [JValue.beqObj, Bool.and_eq_true, beq_iff_eq] at h
    rw [h.1.1, JValue.eq_of_beq h.1.2, JValue.eqObj_of_beq h.2]
  | [], _ :: _, h => Bool.noConfusion h
  | _ :: _, [], h => Bool.noConfusion h

end

mutual

theorem JValue.beq_self : ∀ a : JValue, JValue.beq a a = true
  | .null => rfl
  | .bool x => by simp [JValue.beq]
  | .num x => by simp [JValue.beq]
  | .str x => by simp [JValue.beq]
  | .arr xs => by simpa only [JValue.beq] using JValue.beqList_self xs
  | .obj xs => by simpa only [JValue.beq] using JValue.beqObj_self xs

theorem JValue.beqList_self : ∀ xs : List JValue, JValue.beqList xs xs = true
  | [] => rfl
  | x :: xs => by
    simp only [JValue.beqList, Bool.and_eq_true]
    exact ⟨JValue.beq_self x, JValue.beqList_self xs⟩

theorem JValue.beqObj_self : ∀ xs : List (String × JValue), JValue.beqObj xs xs = true
  | [] => rfl
  | (k, v) :: xs => by
    simp only [JValue.beqObj, Bool.and_eq_true]
    exact ⟨⟨by simp, JValue.beq_self v⟩, JValue.beqObj_self xs⟩

end

instance : DecidableEq JValue := fun a b =>
  if h : JValue.beq a b = true then isTrue (JValue.eq_of_beq h)
  else isFalse (fun he => h (he ▸ JValue.beq_self a))

instance {ε α : Type} [DecidableEq ε] [DecidableEq α] : DecidableEq (Except ε α) := fun a b => by
  cases a <;> cases b
  case error.error x y =>
    exact if h : x = y then isTrue (by rw [h]) else isFalse (fun he => h (by injection he))
  case error.ok x y => exact isFalse (fun he => Except.noConfusion he)
  case ok.error x y => exact isFalse (fun he => Except.noConfusion he)
  case ok.ok x y =>
    exact if h : x = y then isTrue (by rw [h]) else isFalse (fun he => h (by injection he))

/-- `move_core_types::language_storage::ModuleId`: an account address and a
module name.  The address is the numeric value of its 32 bytes. -/
structure ModuleId where
  address : Nat
  name : String
deriving DecidableEq, Repr

/-- Decoding errors of the strict serde step/argument decoding. -/
inductive DecodeError where
  | expectedObject
  | unknownField (key : String)
  | missingField (field : String)
  | expectedStringField (field : String)
  | expectedArrayField (field : String)
  | duplicateField (field : String)
  | unknownKind
  | expectedNumberField (field : String)
deriving DecidableEq

/-- Structured stand-in for the `anyhow` error messages of main.rs: each
constructor records exactly the data interpolated into the corresponding
Rust message. -/
inductive ComposeError where
  | invalidPayloadShape
  | stepDecode (index : Nat) (err : DecodeError)
  | emptyPayload
  | emptyLabel (index : Nat)
  | duplicateLabel (label : String)
  | invalidFunctionId (label : String) (function : String)
  | invalidTypeArgument (label : String) (typeArgument : String)
  | refNotPrevious (label : String) (argIndex : Nat) (refLabel : String)
  | moduleNotLoaded (module : ModuleId)
  | functionNotFound (function : String) (module : ModuleId)
  | unresolvedTypeParam (param : String) (typeArguments : List String)
  | argCountMismatch (label : String) (expected : Nat) (provided : Nat)
  | signerTypeMismatch (label : String) (argIndex : Nat) (param : String)
  | literalEncode (label : String) (argIndex : Nat) (param : String) (inner : ComposeError)
  | literalNormalize (label : String) (argIndex : Nat) (inner : ComposeError)
  | unknownRefStep (label : String) (argIndex : Nat) (refLabel : String)
  | returnIndexOutOfRange (label : String) (argIndex : Nat) (refLabel : String)
      (returnIndex : Nat) (available : Nat)
  | expectedBooleanLiteral
  | expectedStringLiteral
  | expectedAddressString
  | invalidAddressLiteral (raw : String)
  | emptyNumericString
  | expectedNumericLiteral
  | invalidNumericLiteral (typeName : String) (text : String)
  | vectorHexMissingPrefix0x
  | vectorHexDecodeFailed
  | vectorElementInvalid (index : Nat)
  | expectedVectorLiteral
  | unsupportedLiteralType (param : String)
  | unsupportedScriptPayloadLiteralType (param : String)
deriving DecidableEq

/-! ## Kernel-reducible string primitives.

The corresponding core `String` functions iterate over byte positions and do
not reduce definitionally, so the embedding re-expresses them over the
character list (`String::chars`), which is semantically identical for the
`str` operations used by main.rs (modulo the Rust/Lean Unicode-whitespace
class difference, immaterial here). -/

/-- `str::starts_with` on a string pattern. -/
def str_starts_with (s pat : String) : Bool :=
  pat.toList.isPrefixOf s.toList

/-- `str::ends_with` on a string pattern. -/
def str_ends_with (s pat : String) : Bool :=
  pat.toList.isSuffixOf s.toList

/-- `str::contains` on a character pattern. -/
def str_contains (s : String) (c : Char) : Bool :=
  s.toList.contains c

/-- `str::trim`: strip leading and trailing whitespace. -/
def rust_trim (s : String) : String :=
  String.mk (((s.toList.dropWhile Char.isWhitespace).reverse.dropWhile Char.isWhitespace).reverse)

/-! ## Hex and decimal helpers -/

/-- Value of one hexadecimal digit (either case), if any. -/
def hex_digit_value? (c : Char) : Option Nat :=
  if c.isDigit then some (c.toNat - 48)
  else if 'a' ≤ c && c ≤ 'f' then some (c.toNat - 87)
  else if 'A' ≤ c && c ≤ 'F' then some (c.toNat - 55)
  else none

/-- Numeric value of a hex digit string (`none` on a non-hex character; the
empty string yields `some 0`, callers check non-emptiness). -/
def hex_string_value? (cs : List Char) : Option Nat :=
  cs.foldl
    (fun acc c =>
      match acc, hex_digit_value? c with
      | some a, some d => some (a * 16 + d)
      | _, _ => none)
    (some 0)

/-- `hex::decode`: pairs of hex digits to bytes; odd length or a non-hex
character fails. -/
def hex_decode_bytes? : List Char → Option (List Nat)
  | [] => some []
  | c1 :: c2 :: rest =>
    match hex_digit_value? c1, hex_digit_value? c2, hex_decode_bytes? rest with
    | some d1, some d2, some bs => some ((d1 * 16 + d2) :: bs)
    | _, _, _ => none
  | [_] => none

/-- Lowercase hex digit character for a value `< 16`. -/
def hex_digit_char (d : Nat) : Char :=
  if d < 10 then Char.ofNat (48 + d) else Char.ofNat (87 + d)

/-- Lowercase hex digits of `n` without leading zeros, with explicit fuel
(`n + 1` always suffices since the digit count is at most `n + 1`). -/
def nat_to_hex_go : Nat → Nat → List Char
  | 0, _ => []
  | fuel + 1, n => if n = 0 then [] else nat_to_hex_go fuel (n / 16) ++ [hex_digit_char (n % 16)]

/-- Lowercase hex rendering of `n` (no `0x`), `"0"` for zero. -/
def nat_to_hex (n : Nat) : String :=
  if n = 0 then "0" else String.mk (nat_to_hex_go (n + 1) n)

/-- `hex::encode`: two lowercase hex digits per byte. -/
def hex_encode_bytes (bs : List Nat) : String :=
  String.mk (bs.foldr (fun b acc => hex_digit_char (b / 16 % 16) :: hex_digit_char (b % 16) :: acc) [])

/-- Value of a non-empty decimal digit string (`none` if empty or on a
non-digit character). -/
def dec_digits_value? (cs : List Char) : Option Nat :=
  if cs.isEmpty then none
  else
    cs.foldl
      (fun acc c =>
        match acc with
        | some a => if c.isDigit then some (a * 10 + (c.toNat - 48)) else none
        | none => none)
      (some 0)

/-- Modelled from the spec: numeric literal parsing (§4.6) defers to the Rust
`FromStr` instances of the builtin unsigned integer types — an optional `+`
sign followed by decimal digits, range-checked against the type's width. -/
def rust_parse_uint (bits : Nat) (s : String) : Option Nat :=
  let cs :=
    match s.toList with
    | '+' :: rest => rest
    | cs => cs
  match dec_digits_value? cs with
  | some n => if n < 2 ^ bits then some n else none
  | none => none

/-- Modelled from the spec: numeric literal parsing (§4.6) defers to the Rust
`FromStr` instances of the builtin signed integer types — an optional `+`/`-`
sign followed by decimal digits, range-checked against the type's width. -/
def rust_parse_int (bits : Nat) (s : String) : Option Int :=
  match s.toList with
  | '-' :: rest =>
    (dec_digits_value? rest).bind fun n =>
      if (n : Int) ≤ 2 ^ (bits - 1) then some (-(n : Int)) else none
  | '+' :: rest =>
    (dec_digits_value? rest).bind fun n =>
      if (n : Int) < 2 ^ (bits - 1) then some (n : Int) else none
  | cs =>
    (dec_digits_value? cs).bind fun n =>
      if (n : Int) < 2 ^ (bits - 1) then some (n : Int) else none

/-! ## Address model -/

/-- Modelled from the spec (§4.6): `AccountAddress::from_hex_literal` — `0x`
followed by 1 to 64 hex digits (short forms are zero-extended on the left,
i.e. simply the numeric value). -/
def account_address_from_hex_literal (s : String) : Option Nat :=
  match s.toList with
  | '0' :: 'x' :: rest =>
    if rest.isEmpty || 64 < rest.length then none else hex_string_value? rest
  | _ => none

/-- Modelled from the spec (§4.6): `AccountAddress::from_str` — a hex literal,
or the full-width 64-hex-digit form without prefix. -/
def account_address_from_str (s : String) : Option Nat :=
  account_address_from_hex_literal s <|>
    (if s.toList.length = 64 then hex_string_value? s.toList else none)

/-- Modelled from the spec (§4.6): `AccountAddress::to_hex_literal` — the
canonical `0x`-prefixed short hex form with leading zeros stripped. -/
def to_hex_literal (a : Nat) : String :=
  "0x" ++ nat_to_hex a

/-- `parse_address_literal` from main.rs: a (trimmed) string literal, parsed
as a hex literal with `from_str` fallback when `0x`-prefixed, and with
`from_str` alone otherwise. -/
def parse_address_literal (value : JValue) : Except ComposeError Nat :=
  match value with
  | .str s =>
    let raw := rust_trim s
    if str_starts_with raw "0x" then
      match account_address_from_hex_literal raw <|> account_address_from_str raw with
      | some a => .ok a
      | none => .error (.invalidAddressLiteral raw)
    else
      match account_address_from_str raw with
      | some a => .ok a
      | none => .error (.invalidAddressLiteral raw)
  | _ => .error .expectedAddressString

/-! ## Numeric literal normalization (main.rs: `normalize_numeric_literal`, `parse_number`) -/

/-- `str::strip_suffix('n').unwrap_or(s)`: remove exactly one trailing `n`. -/
def strip_suffix_n (s : String) : String :=
  if str_ends_with s "n" then String.mk s.toList.dropLast else s

/-- `normalize_numeric_literal` from main.rs: a string literal is trimmed,
rejected when empty, and has a single trailing `n` suffix stripped; a number
literal is printed back to its decimal text. -/
def normalize_numeric_literal (value : JValue) : Except ComposeError String :=
  match value with
  | .str text =>
    let trimmed := rust_trim text
    if trimmed = "" then .error .emptyNumericString
    else .ok (strip_suffix_n trimmed)
  | .num number => .ok (toString number)
  | _ => .error .expectedNumericLiteral

/-- `parse_number::<T>` from main.rs at an unsigned integer type of the given
bit width. -/
def parse_number_uint (bits : Nat) (type_name : String) (value : JValue) :
    Except ComposeError Nat := do
  let text ← normalize_numeric_literal value
  match rust_parse_uint bits text with
  | some n => .ok n
  | none => .error (.invalidNumericLiteral type_name text)

/-- `parse_number::<T>` from main.rs at a signed integer type of the given
bit width. -/
def parse_number_int (bits : Nat) (type_name : String) (value : JValue) :
    Except ComposeError Int := do
  let text ← normalize_numeric_literal value
  match rust_parse_int bits text with
  | some n => .ok n
  | none => .error (.invalidNumericLiteral type_name text)

/-! ## Other literal parsers (main.rs) -/

/-- `parse_bool_literal` from main.rs (`Value::as_bool`). -/
def parse_bool_literal (value : JValue) : Except ComposeError Bool :=
  match value with
  | .bool b => .ok b
  | _ => .error .expectedBooleanLiteral

/-- `parse_string_literal` from main.rs (`Value::as_str`). -/
def parse_string_literal (value : JValue) : Except ComposeError String :=
  match value with
  | .str s => .ok s
  | _ => .error .expectedStringLiteral

/-- The element loop of `parse_bytes_literal` over a JSON array, checking each
element as a `u8` and recording the failing index. -/
def parse_bytes_array_go (index : Nat) : List JValue → Except ComposeError (List Nat)
  | [] => .ok []
  | item :: rest =>
    match parse_number_uint 8 "u8" item with
    | .ok b => (parse_bytes_array_go (index + 1) rest).map (b :: ·)
    | .error _ => .error (.vectorElementInvalid index)

/-- `parse_bytes_literal` from main.rs: a trimmed `0x`-prefixed hex string, or
an array of `u8` literals. -/
def parse_bytes_literal (value : JValue) : Except ComposeError (List Nat) :=
  match value with
  | .str s =>
    let text := rust_trim s
    if str_starts_with text "0x" then
      match hex_decode_bytes? (text.toList.drop 2) with
      | some bs => .ok bs
      | none => .error .vectorHexDecodeFailed
    else .error .vectorHexMissingPrefix0x
  | .arr values => parse_bytes_array_go 0 values
  | _ => .error .expectedVectorLiteral

/-! ## Type-name normalization (main.rs) -/

/-- `normalize_type_name` from main.rs: drop every whitespace character. -/
def normalize_type_name (value : String) : String :=
  String.mk (value.toList.filter (fun ch => ! ch.isWhitespace))

/-- `str::trim_start_matches`: repeatedly strip a (non-empty) leading pattern. -/
def trim_start_matches_go (pat : String) : Nat → String → String
  | 0, s => s
  | fuel + 1, s =>
    if pat ≠ "" && str_starts_with s pat then
      trim_start_matches_go pat fuel (String.mk (s.toList.drop pat.toList.length))
    else s

/-- `str::trim_start_matches` (the pattern is non-empty at every call site, so
`s.length` fuel suffices). -/
def trim_start_matches (s pat : String) : String :=
  trim_start_matches_go pat s.toList.length s

/-- The leading-reference stripping shared by `encode_literal` and
`normalize_literal_for_script_payload` in main.rs. -/
def strip_reference (expected : String) : String :=
  if str_starts_with expected "&mut" then trim_start_matches expected "&mut"
  else if str_starts_with expected "&" then trim_start_matches expected "&"
  else expected

/-- `is_object_type` from main.rs. -/
def is_object_type (value : String) : Bool :=
  str_starts_with value "0x1::object::Object<" && str_ends_with value ">"

/-- `is_string_wrapper_type` from main.rs. -/
def is_string_wrapper_type (value : String) : Bool :=
  value == "0x1::string::String" || value == "0x1::ascii::String"

/-! ## BCS serialization of the supported `MoveValue`s.

Modelled from the spec (§4.6): BCS-style encodings — fixed-width little-endian
integers, two's-complement for signed ones, the 32 raw address bytes, and
ULEB128-length-prefixed byte vectors (`MoveValue::simple_serialize`; it cannot
fail on these shapes, so the Rust `serialize_move_value` error path is dead). -/

/-- `width` little-endian bytes of `n`. -/
def le_bytes (width : Nat) (n : Nat) : List Nat :=
  (List.range width).map (fun i => n / 256 ^ i % 256)

/-- Two's-complement representative of `x` modulo `2 ^ bits`. -/
def twos_complement (bits : Nat) (x : Int) : Nat :=
  (x % ((2 : Int) ^ bits)).toNat

/-- ULEB128 digits of `n`, with fuel (`n + 1` always suffices). -/
def uleb128_go : Nat → Nat → List Nat
  | 0, _ => []
  | fuel + 1, n => if n < 128 then [n] else (n % 128 + 128) :: uleb128_go fuel (n / 128)

/-- ULEB128 encoding of `n`. -/
def uleb128 (n : Nat) : List Nat :=
  uleb128_go (n + 1) n

/-- The 32 big-endian bytes of an account address value. -/
def address_bytes (a : Nat) : List Nat :=
  (List.range 32).map (fun i => a / 256 ^ (31 - i) % 256)

/-- UTF-8 bytes of a string (`String::into_bytes`). -/
def utf8_bytes (s : String) : List Nat :=
  s.toUTF8.toList.map (fun b => b.toNat)

/-- BCS bytes of a byte vector: ULEB128 length then the raw bytes. -/
def bcs_vector_u8 (bs : List Nat) : List Nat :=
  uleb128 bs.length ++ bs

/-! ## `encode_literal` (main.rs): the VM-binary encoding -/

/-- `encode_literal` from main.rs: normalize the parameter type name, strip a
leading `&mut`/`&`, reject any remaining reference, and dispatch on the type
name to the BCS encoding of the parsed literal. -/
def encode_literal (expected_param : String) (value : JValue) :
    Except ComposeError (List Nat) :=
  let expected := strip_reference (normalize_type_name expected_param)
  if str_contains expected '&' then .error (.unsupportedLiteralType expected_param)
  else if expected = "bool" then
    (parse_bool_literal value).map (fun b => [if b then 1 else 0])
  else if expected = "u8" then (parse_number_uint 8 "u8" value).map (le_bytes 1)
  else if expected = "u16" then (parse_number_uint 16 "u16" value).map (le_bytes 2)
  else if expected = "u32" then (parse_number_uint 32 "u32" value).map (le_bytes 4)
  else if expected = "u64" then (parse_number_uint 64 "u64" value).map (le_bytes 8)
  else if expected = "u128" then (parse_number_uint 128 "u128" value).map (le_bytes 16)
  else if expected = "u256" then (parse_number_uint 256 "u256" value).map (le_bytes 32)
  else if expected = "i8" then
    (parse_number_int 8 "i8" value).map (fun x => le_bytes 1 (twos_complement 8 x))
  else if expected = "i16" then
    (parse_number_int 16 "i16" value).map (fun x => le_bytes 2 (twos_complement 16 x))
  else if expected = "i32" then
    (parse_number_int 32 "i32" value).map (fun x => le_bytes 4 (twos_complement 32 x))
  else if expected = "i64" then
    (parse_number_int 64 "i64" value).map (fun x => le_bytes 8 (twos_complement 64 x))
  else if expected = "i128" then
    (parse_number_int 128 "i128" value).map (fun x => le_bytes 16 (twos_complement 128 x))
  else if expected = "i256" then
    (parse_number_int 256 "i256" value).map (fun x => le_bytes 32 (twos_complement 256 x))
  else if expected = "address" then (parse_address_literal value).map address_bytes
  else if expected = "vector<u8>" then (parse_bytes_literal value).map bcs_vector_u8
  else if is_object_type expected then
    -- Object<T> is a single-field wrapper over address.
    (parse_address_literal value).map address_bytes
  else if is_string_wrapper_type expected then
    (parse_string_literal value).map (fun s => bcs_vector_u8 (utf8_bytes s))
  else .error (.unsupportedLiteralType expected_param)

/-! ## `normalize_literal_for_script_payload` (main.rs): the JSON encoding -/

/-- `normalize_literal_for_script_payload` from main.rs: same type dispatch as
`encode_literal`, but producing the node-API JSON form — integers of 64 bits
and above as decimal strings, addresses (and `Object<T>`) as canonical hex
literals, byte vectors as `0x`-prefixed hex strings. -/
def normalize_literal_for_script_payload (expected_param : String) (value : JValue) :
    Except ComposeError JValue :=
  let expected := strip_reference (normalize_type_name expected_param)
  if str_contains expected '&' then .error (.unsupportedScriptPayloadLiteralType expected_param)
  else if expected = "bool" then (parse_bool_literal value).map JValue.bool
  else if expected = "u8" then
    (parse_number_uint 8 "u8" value).map (fun n => JValue.num (n : Int))
  else if expected = "u16" then
    (parse_number_uint 16 "u16" value).map (fun n => JValue.num (n : Int))
  else if expected = "u32" then
    (parse_number_uint 32 "u32" value).map (fun n => JValue.num (n : Int))
  else if expected = "u64" then
    (parse_number_uint 64 "u64" value).map (fun n => JValue.str (toString n))
  else if expected = "u128" then
    (parse_number_uint 128 "u128" value).map (fun n => JValue.str (toString n))
  else if expected = "u256" then
    (parse_number_uint 256 "u256" value).map (fun n => JValue.str (toString n))
  else if expected = "i8" then (parse_number_int 8 "i8" value).map JValue.num
  else if expected = "i16" then (parse_number_int 16 "i16" value).map JValue.num
  else if expected = "i32" then (parse_number_int 32 "i32" value).map JValue.num
  else if expected = "i64" then
    (parse_number_int 64 "i64" value).map (fun x => JValue.str (toString x))
  else if expected = "i128" then
    (parse_number_int 128 "i128" value).map (fun x => JValue.str (toString x))
  else if expected = "i256" then
    (parse_number_int 256 "i256" value).map (fun x => JValue.str (toString x))
  else if expected = "address" then
    (parse_address_literal value).map (fun a => JValue.str (to_hex_literal a))
  else if expected = "vector<u8>" then
    (parse_bytes_literal value).map (fun bs => JValue.str ("0x" ++ hex_encode_bytes bs))
  else if is_object_type expected then
    (parse_address_literal value).map (fun a => JValue.str (to_hex_literal a))
  else if is_string_wrapper_type expected then
    (parse_string_literal value).map JValue.str
  else .error (.unsupportedLiteralType expected_param)

example :
    encode_literal "u64" (JValue.str "205000000n") = .ok [64, 13, 56, 12, 0, 0, 0, 0] := by
  decide

example : encode_literal "u64" (JValue.num 205000000) = .ok [64, 13, 56, 12, 0, 0, 0, 0] := by
  decide

example :
    normalize_literal_for_script_payload "u64" (JValue.str "205000000n") =
      .ok (JValue.str "205000000") := by decide

example : parse_address_literal (JValue.str "0x1") = .ok 1 := by decide

example :
    normalize_literal_for_script_payload "0x1::object::Object<T0>" (JValue.str "0x1") =
      .ok (JValue.str "0x1") := by decide

example :
    encode_literal "0x1::object::Object<T0>" (JValue.str "0x1") =
      encode_literal "address" (JValue.str "0x1") := by decide

/-! ## Step data model (main.rs: `StepInput`, `ArgInput`, `FunctionId`, `ResolvedStep`) -/

/-- `ArgInput` from main.rs: the tagged union of argument kinds. -/
inductive ArgInput where
  | signer
  | literal (value : JValue)
  | ref (step : String) (return_index : Nat)
deriving DecidableEq

/-- `StepInput` from main.rs. -/
structure StepInput where
  label : String
  function : String
  type_arguments : List String
  args : List ArgInput
deriving DecidableEq

/-- `FunctionId` from main.rs. -/
structure FunctionId where
  module_id : ModuleId
  function : String
deriving DecidableEq

/-- `ResolvedStep` from main.rs. -/
structure ResolvedStep where
  label : String
  function_id : FunctionId
  type_arguments : List String
  args : List ArgInput
deriving DecidableEq

/-- Association-list lookup, modelling both `HashMap::get` and repeated
linear lookups (all maps in the pipeline have distinct keys). -/
def assoc_find {α : Type} (key : String) : List (String × α) → Option α
  | [] => none
  | (k, v) :: rest => if k = key then some v else assoc_find key rest

/-! ## Strict payload decoding (main.rs: serde derives and the manual
`Deserialize for ArgInput`).

The `fields` list of a `JValue.obj` models the already-deduplicated
`serde_json::Map`, and the `DecodeError` values are structured stand-ins for
serde's message strings. -/

/-- First object key outside the allowed set (`deny_unknown_fields`). -/
def first_unknown_key (allowed : List String) (fields : List (String × JValue)) :
    Option String :=
  (fields.find? (fun f => ! allowed.contains f.1)).map (fun f => f.1)

/-- The `returnIndex` / `return_index` aliased field of a `ref` argument:
exactly one spelling must be present, holding a non-negative integer
(`usize`). -/
def decode_return_index (fields : List (String × JValue)) : Except DecodeError Nat :=
  match assoc_find "returnIndex" fields with
  | some v =>
    match assoc_find "return_index" fields with
    | some _ => .error (.duplicateField "returnIndex")
    | none =>
      match v with
      | .num n => if n < 0 then .error (.expectedNumberField "returnIndex") else .ok n.toNat
      | _ => .error (.expectedNumberField "returnIndex")
  | none =>
    match assoc_find "return_index" fields with
    | some (.num n) =>
      if n < 0 then .error (.expectedNumberField "returnIndex") else .ok n.toNat
    | some _ => .error (.expectedNumberField "returnIndex")
    | none => .error (.missingField "returnIndex")

/-- Decoding of one argument object: dispatch on the required `kind`
discriminator, then decode the chosen variant with `deny_unknown_fields`. -/
def decode_arg (v : JValue) : Except DecodeError ArgInput :=
  match v with
  | .obj fields =>
    match assoc_find "kind" fields with
    | some (.str k) =>
      if k = "signer" then
        match first_unknown_key ["kind"] fields with
        | some key => .error (.unknownField key)
        | none => .ok .signer
      else if k = "literal" then
        match first_unknown_key ["kind", "value"] fields with
        | some key => .error (.unknownField key)
        | none =>
          match assoc_find "value" fields with
          | some value => .ok (.literal value)
          | none => .error (.missingField "value")
      else if k = "ref" then
        match first_unknown_key ["kind", "step", "returnIndex", "return_index"] fields with
        | some key => .error (.unknownField key)
        | none =>
          match assoc_find "step" fields with
          | some (.str sstep) => (decode_return_index fields).map (ArgInput.ref sstep)
          | some _ => .error (.expectedStringField "step")
          | none => .error (.missingField "step")
      else .error .unknownKind
    | some _ => .error .unknownKind
    | none => .error (.missingField "kind")
  | _ => .error .expectedObject

/-- Decoding of a JSON array of argument objects. -/
def decode_args_list : List JValue → Except DecodeError (List ArgInput)
  | [] => .ok []
  | v :: rest => do
    let a ← decode_arg v
    let tail ← decode_args_list rest
    .ok (a :: tail)

/-- Decoding of a JSON array of type-argument strings. -/
def decode_string_list : List JValue → Except DecodeError (List String)
  | [] => .ok []
  | .str s :: rest => (decode_string_list rest).map (s :: ·)
  | _ :: _ => .error (.expectedStringField "typeArguments")

/-- The `typeArguments` / `type_arguments` aliased field: exactly one
spelling may be present (an array of strings); absence defaults to `[]`. -/
def decode_type_arguments (fields : List (String × JValue)) :
    Except DecodeError (List String) :=
  match assoc_find "typeArguments" fields with
  | some v =>
    match assoc_find "type_arguments" fields with
    | some _ => .error (.duplicateField "typeArguments")
    | none =>
      match v with
      | .arr items => decode_string_list items
      | _ => .error (.expectedArrayField "typeArguments")
  | none =>
    match assoc_find "type_arguments" fields with
    | some (.arr items) => decode_string_list items
    | some _ => .error (.expectedArrayField "typeArguments")
    | none => .ok []

/-- Decoding of one step object (`StepInput` with `deny_unknown_fields`). -/
def decode_step (v : JValue) : Except DecodeError StepInput :=
  match v with
  | .obj fields =>
    match first_unknown_key ["label", "function", "typeArguments", "type_arguments", "args"]
        fields with
    | some key => .error (.unknownField key)
    | none => do
      let label ←
        match assoc_find "label" fields with
        | some (.str s) => Except.ok s
        | some _ => Except.error (.expectedStringField "label")
        | none => Except.error (.missingField "label")
      let function ←
        match assoc_find "function" fields with
        | some (.str s) => Except.ok s
        | some _ => Except.error (.expectedStringField "function")
        | none => Except.error (.missingField "function")
      let type_arguments ← decode_type_arguments fields
      let args ←
        match assoc_find "args" fields with
        | some (.arr items) => decode_args_list items
        | some _ => Except.error (.expectedArrayField "args")
        | none => Except.error (.missingField "args")
      .ok { label := label, function := function, type_arguments := type_arguments, args := args }
  | _ => .error .expectedObject

/-- Element loop of decoding the payload's step array. -/
def decode_steps_go (index : Nat) : List JValue → Except ComposeError (List StepInput)
  | [] => .ok []
  | v :: rest =>
    match decode_step v with
    | .error e => .error (.stepDecode index e)
    | .ok s => (decode_steps_go (index + 1) rest).map (s :: ·)

/-- `parse_steps_payload` from main.rs: only a bare top-level JSON array is
accepted; anything else is the schema error naming the expected shape. -/
def parse_steps_payload (raw : JValue) : Except ComposeError (List StepInput) :=
  match raw with
  | .arr items => decode_steps_go 0 items
  | _ => .error .invalidPayloadShape

/-! ## Function-id parsing (main.rs: `FunctionId::parse`) -/

/-- `str::split("::")`, on characters (left-to-right, non-overlapping). -/
def split_double_colon : List Char → List (List Char)
  | [] => [[]]
  | ':' :: ':' :: rest => [] :: split_double_colon rest
  | c :: rest =>
    match split_double_colon rest with
    | [] => [[c]]
    | piece :: pieces => (c :: piece) :: pieces

/-- Modelled from the spec (§3, §4.2): Move identifier syntax — a letter or
underscore followed by letters, digits or underscores (`Identifier::new`). -/
def valid_identifier (s : String) : Bool :=
  match s.toList with
  | [] => false
  | c :: rest => (c.isAlpha || c == '_') && rest.all (fun ch => ch.isAlphanum || ch == '_')

/-- `FunctionId::parse` from main.rs: split on `::` into exactly three
segments, parse segment 1 as an account address and segments 2 and 3 as
identifiers (`ModuleId::from_str` / `Identifier::new`). -/
def FunctionId.parse? (input : String) : Option FunctionId :=
  match (split_double_colon input.toList).map String.mk with
  | [a, m, f] => do
    let addr ← account_address_from_str a
    if valid_identifier m && valid_identifier f then
      some { module_id := { address := addr, name := m }, function := f }
    else none
  | _ => none

example : FunctionId.parse? "0x1::coin::transfer" =
    some { module_id := { address := 1, name := "coin" }, function := "transfer" } := by decide

example : FunctionId.parse? "0x1::coin" = none := by decide

/-! ## Type tags.

Modelled from the spec (§3, §4.3 and the glossary): a structured type tag is a
primitive, a vector, or a struct with address, module name, type name and
type arguments (`move_core_types::language_storage::TypeTag`). -/

/-- Modelled from the spec: the structured type-tag AST. -/
inductive TypeTag where
  | bool
  | u8
  | u16
  | u32
  | u64
  | u128
  | u256
  | address
  | signer
  | vector (elem : TypeTag)
  | strct (address : Nat) (module : String) (name : String) (typeArgs : List TypeTag)

/-! Modelled from the spec (§4.2/§4.3): the textual type-tag grammar accepted
by `TypeTag::from_str` — primitives, `vector<T>`, and
`0xADDR::module::Name<T, ...>` with hex addresses.  Recursive descent over
the character list; the mutual recursion is fueled (the nesting depth is
bounded by the input length, so the chosen fuel never runs out on an
accepted input). -/

mutual

def parse_tag_go : Nat → List Char → Option (TypeTag × List Char)
  | 0, _ => none
  | fuel + 1, cs0 =>
    let cs := cs0.dropWhile Char.isWhitespace
    match cs with
    | '0' :: 'x' :: rest =>
      let hx := rest.takeWhile (fun c => (hex_digit_value? c).isSome)
      let rest1 := rest.dropWhile (fun c => (hex_digit_value? c).isSome)
      if hx.isEmpty || 64 < hx.length then none
      else
        match hex_string_value? hx with
        | none => none
        | some addr =>
          match rest1 with
          | ':' :: ':' :: rest2 =>
            let m := rest2.takeWhile (fun c => c.isAlphanum || c == '_')
            let rest3 := rest2.dropWhile (fun c => c.isAlphanum || c == '_')
            if ! valid_identifier (String.mk m) then none
            else
              match rest3 with
              | ':' :: ':' :: rest4 =>
                let n := rest4.takeWhile (fun c => c.isAlphanum || c == '_')
                let rest5 := rest4.dropWhile (fun c => c.isAlphanum || c == '_')
                if ! valid_identifier (String.mk n) then none
                else
                  match rest5.dropWhile Char.isWhitespace with
                  | '<' :: rest6 =>
                    match parse_tag_list_go fuel rest6 with
                    | some (targs, rest7) =>
                      match rest7.dropWhile Char.isWhitespace with
                      | '>' :: rest8 =>
                        some (.strct addr (String.mk m) (String.mk n) targs, rest8)
                      | _ => none
                    | none => none
                  | _ => some (.strct addr (String.mk m) (String.mk n) [], rest5)
              | _ => none
          | _ => none
    | _ =>
      let id := cs.takeWhile (fun c => c.isAlphanum || c == '_')
      let rest := cs.dropWhile (fun c => c.isAlphanum || c == '_')
      if String.mk id = "bool" then some (.bool, rest)
      else if String.mk id = "u8" then some (.u8, rest)
      else if String.mk id = "u16" then some (.u16, rest)
      else if String.mk id = "u32" then some (.u32, rest)
      else if String.mk id = "u64" then some (.u64, rest)
      else if String.mk id = "u128" then some (.u128, rest)
      else if String.mk id = "u256" then some (.u256, rest)
      else if String.mk id = "address" then some (.address, rest)
      else if String.mk id = "signer" then some (.signer, rest)
      else if String.mk id = "vector" then
        match rest.dropWhile Char.isWhitespace with
        | '<' :: rest1 =>
          match parse_tag_go fuel rest1 with
          | some (t, rest2) =>
            match rest2.dropWhile Char.isWhitespace with
            | '>' :: rest3 => some (.vector t, rest3)
            | _ => none
          | none => none
        | _ => none
      else none

def parse_tag_list_go : Nat → List Char → Option (List TypeTag × List Char)
  | 0, _ => none
  | fuel + 1, cs =>
    match parse_tag_go fuel cs with
    | some (t, rest) =>
      match rest.dropWhile Char.isWhitespace with
      | ',' :: rest1 =>
        match parse_tag_list_go fuel rest1 with
        | some (ts, rest2) => some (t :: ts, rest2)
        | none => none
      | _ => some ([t], rest)
    | none => none

end

/-- Modelled from the spec: `TypeTag::from_str` — the whole (whitespace-
trimmed) string must parse as one type tag. -/
def parse_type_tag (s : String) : Option TypeTag :=
  match parse_tag_go (2 * s.toList.length + 2) s.toList with
  | some (t, rest) => if (rest.dropWhile Char.isWhitespace).isEmpty then some t else none
  | none => none

example : (parse_type_tag "0x1::aptos_coin::AptosCoin").isSome = true := by decide

example : (parse_type_tag "vector<u8>").isSome = true := by decide

example : (parse_type_tag "0x1::object::Object<0x1::fungible_asset::Metadata>").isSome = true := by
  decide

example : (parse_type_tag "vector<T0>").isSome = false := by decide

example : (parse_type_tag "not a tag").isSome = false := by decide

/-! ## Step resolution (main.rs: `resolve_steps`) -/

/-- First type-argument string that fails to parse as a type tag, if any
(the validation loop of `resolve_steps`). -/
def first_invalid_type_argument : List String → Option String
  | [] => none
  | ta :: rest =>
    if (parse_type_tag ta).isSome then first_invalid_type_argument rest else some ta

/-- First `Ref` argument whose label is not yet registered, if any, with its
position (the argument loop of `resolve_steps`). -/
def first_bad_ref (labels : List (String × Nat)) : Nat → List ArgInput → Option (Nat × String)
  | _, [] => none
  | arg_index, .ref step _ :: rest =>
    if (assoc_find step labels).isSome then first_bad_ref labels (arg_index + 1) rest
    else some (arg_index, step)
  | arg_index, _ :: rest => first_bad_ref labels (arg_index + 1) rest

/-- The main loop of `resolve_steps`: per step, trim and check the label,
parse the function id, validate the type-argument tags, check every `Ref`
against the labels registered by strictly earlier iterations, then register
the label. -/
def resolve_steps_go (labels : List (String × Nat)) (acc : List ResolvedStep) (index : Nat) :
    List StepInput → Except ComposeError (List ResolvedStep)
  | [] => .ok acc.reverse
  | step :: rest =>
    let label := rust_trim step.label
    if label = "" then .error (.emptyLabel index)
    else if (assoc_find label labels).isSome then .error (.duplicateLabel label)
    else
      match FunctionId.parse? step.function with
      | none => .error (.invalidFunctionId label step.function)
      | some function_id =>
        match first_invalid_type_argument step.type_arguments with
        | some ta => .error (.invalidTypeArgument label ta)
        | none =>
          match first_bad_ref labels 0 step.args with
          | some (arg_index, ref_step) => .error (.refNotPrevious label arg_index ref_step)
          | none =>
            resolve_steps_go ((label, index) :: labels)
              ({ label := label, function_id := function_id,
                 type_arguments := step.type_arguments, args := step.args } :: acc)
              (index + 1) rest

/-- `resolve_steps` from main.rs. -/
def resolve_steps (payload_steps : List StepInput) : Except ComposeError (List ResolvedStep) :=
  if payload_steps.isEmpty then .error .emptyPayload
  else resolve_steps_go [] [] 0 payload_steps

/-! ## Required-module collection (main.rs: `collect_required_modules`) -/

/-- Strict byte-wise (here: codepoint-wise, identical on the ASCII module
names in play) lexicographic order on strings, modelling the Rust `Ord` of
`Identifier`. -/
def char_list_lt : List Char → List Char → Bool
  | [], [] => false
  | [], _ :: _ => true
  | _ :: _, [] => false
  | c1 :: r1, c2 :: r2 =>
    if c1.toNat < c2.toNat then true
    else if c2.toNat < c1.toNat then false
    else char_list_lt r1 r2

/-- Modelled from the spec: the derived Rust `Ord` on `ModuleId` — by address
bytes (numeric value, since the width is fixed), then by name. -/
def module_lt (a b : ModuleId) : Bool :=
  a.address < b.address || (a.address == b.address && char_list_lt a.name.toList b.name.toList)

/-- `BTreeSet<ModuleId>::insert`, on the sorted list that models the set's
iteration order (ascending `module_lt`). -/
def btree_insert (m : ModuleId) : List ModuleId → List ModuleId
  | [] => [m]
  | x :: xs =>
    if module_lt m x then m :: x :: xs
    else if m = x then x :: xs
    else x :: btree_insert m xs

/-! Modelled from the spec (§4.3): the module ids of the struct-shaped
components of a type tag, in pre-order (`TypeTag::preorder_traversal_iter`
filtered through `struct_tag`). -/

mutual

def tag_struct_modules : TypeTag → List ModuleId
  | .vector t => tag_struct_modules t
  | .strct a m _ targs => { address := a, name := m } :: tags_struct_modules targs
  | _ => []

def tags_struct_modules : List TypeTag → List ModuleId
  | [] => []
  | t :: ts => tag_struct_modules t ++ tags_struct_modules ts

end

/-- Insert a list of module ids into the set in discovery order. -/
def btree_insert_all (acc : List ModuleId) (mods : List ModuleId) : List ModuleId :=
  mods.foldl (fun acc m => btree_insert m acc) acc

/-- The type-argument loop of `collect_required_modules` for one step:
re-parse each tag (failing as in main.rs) and insert every struct module of
its pre-order traversal. -/
def collect_step_tags (label : String) (acc : List ModuleId) :
    List String → Except ComposeError (List ModuleId)
  | [] => .ok acc
  | ta :: rest =>
    match parse_type_tag ta with
    | none => .error (.invalidTypeArgument label ta)
    | some tag => collect_step_tags label (btree_insert_all acc (tag_struct_modules tag)) rest

/-- The step loop of `collect_required_modules`. -/
def collect_required_modules_go (acc : List ModuleId) :
    List ResolvedStep → Except ComposeError (List ModuleId)
  | [] => .ok acc
  | step :: rest =>
    match collect_step_tags step.label (btree_insert step.function_id.module_id acc)
        step.type_arguments with
    | .error e => .error e
    | .ok acc2 => collect_required_modules_go acc2 rest

/-- `collect_required_modules` from main.rs: the `BTreeSet` of every step's
function module plus every struct module reachable in every parsed
type-argument tag, returned in the set's (ascending) iteration order. -/
def collect_required_modules (steps : List ResolvedStep) :
    Except ComposeError (List ModuleId) :=
  collect_required_modules_go [] steps

/-! ## Parameter resolution (main.rs: `resolve_function_params`) -/

/-- `ModuleInfo` from main.rs: bytecode plus the ABI's
function-name-to-parameter-list mapping. -/
structure ModuleInfo where
  bytecode : List Nat
  functions : List (String × List String)
deriving DecidableEq

/-- The parameter loop of `resolve_function_params`: substitute each declared
parameter string and fail on the first one with a residual placeholder,
naming the original parameter and the supplied type arguments. -/
def resolve_params_go (type_arguments : List String) :
    List String → Except ComposeError (List String)
  | [] => .ok []
  | param :: rest =>
    let substituted := substitute_type_parameters param type_arguments
    if contains_unresolved_type_param substituted then
      .error (.unresolvedTypeParam param type_arguments)
    else (resolve_params_go type_arguments rest).map (substituted :: ·)

/-- `resolve_function_params` from main.rs. -/
def resolve_function_params (step : ResolvedStep) (module_info : ModuleInfo) :
    Except ComposeError (List String) :=
  match assoc_find step.function_id.function module_info.functions with
  | none => .error (.functionNotFound step.function_id.function step.function_id.module_id)
  | some params => resolve_params_go step.type_arguments params

/-! ## Per-step call assembly (the step loop of `run` in main.rs) -/

/-- Modelled from the spec (§3, §4.7): the composition engine's opaque
call-argument handles — the reserved signer handle
(`CallArgument::new_signer(0)`), inline literal bytes
(`CallArgument::new_bytes`), and values returned by earlier calls. -/
inductive CallArgument where
  | signer (index : Nat)
  | bytes (bytes : List Nat)
  | returned (step : String) (return_index : Nat)
deriving DecidableEq

/-- `HashMap<ModuleId, ModuleInfo>::get`. -/
def find_module : List (ModuleId × ModuleInfo) → ModuleId → Option ModuleInfo
  | [], _ => none
  | (k, v) :: rest, key => if k = key then some v else find_module rest key

/-- The argument loop of `run`'s step body: produce a call-argument handle
per argument position, and collect the script-payload encoding of every
literal (the `payload_arguments` pushes), with the same error contexts as
main.rs. -/
def build_args_go (label : String) (returns_by_label : List (String × List CallArgument)) :
    Nat → List (ArgInput × String) → Except ComposeError (List CallArgument × List JValue)
  | _, [] => .ok ([], [])
  | index, (arg, expected_param) :: rest =>
    match arg with
    | .signer =>
      if normalize_type_name expected_param ≠ "&signer" then
        .error (.signerTypeMismatch label index expected_param)
      else
        (build_args_go label returns_by_label (index + 1) rest).map
          (fun r => (.signer 0 :: r.1, r.2))
    | .literal value =>
      match encode_literal expected_param value with
      | .error e => .error (.literalEncode label index expected_param e)
      | .ok bs =>
        match normalize_literal_for_script_payload expected_param value with
        | .error e => .error (.literalNormalize label index e)
        | .ok payload_value =>
          (build_args_go label returns_by_label (index + 1) rest).map
            (fun r => (.bytes bs :: r.1, payload_value :: r.2))
    | .ref ref_step return_index =>
      match assoc_find ref_step returns_by_label with
      | none => .error (.unknownRefStep label index ref_step)
      | some values =>
        match values.get? return_index with
        | none =>
          .error (.returnIndexOutOfRange label index ref_step return_index values.length)
        | some v =>
          (build_args_go label returns_by_label (index + 1) rest).map
            (fun r => (v :: r.1, r.2))

/-- The validation and argument-assembly part of `run`'s per-step body:
look up the fetched module, resolve the parameters, enforce the
argument-count check, and build the call arguments (everything before the
call is submitted to the external composition engine). -/
def process_step (modules : List (ModuleId × ModuleInfo))
    (returns_by_label : List (String × List CallArgument)) (step : ResolvedStep) :
    Except ComposeError (List CallArgument × List JValue) :=
  match find_module modules step.function_id.module_id with
  | none => .error (.moduleNotLoaded step.function_id.module_id)
  | some module_info =>
    match resolve_function_params step module_info with
    | .error e => .error e
    | .ok expected_params =>
      if expected_params.length ≠ step.args.length then
        .error (.argCountMismatch step.label expected_params.length step.args.length)
      else build_args_go step.label returns_by_label 0 (step.args.zip expected_params)

/-! ## Properties of the digit-run scanner -/

theorem char_at_is_digit_lt {chars : List Char} {i : Nat}
    (h : char_at_is_digit chars i = true) : i < chars.length := by
  unfold char_at_is_digit at h
  cases hg : chars.get? i with
  | none => rw [hg] at h; cases h
  | some c =>
    have := List.get?_eq_some.mp hg
    exact this.1

theorem char_at_is_digit_of_ge {chars : List Char} {i : Nat} (h : chars.length ≤ i) :
    char_at_is_digit chars i = false := by
  unfold char_at_is_digit
  rw [List.get?_eq_none.mpr h]

theorem digit_run_end_go_ge (chars : List Char) :
    ∀ fuel e, e ≤ digit_run_end_go chars fuel e := by
  intro fuel
  induction fuel with
  | zero => intro e; simp [digit_run_end_go]
  | succ n ih =>
    intro e
    unfold digit_run_end_go
    split
    · exact Nat.le_trans (Nat.le_succ e) (ih (e + 1))
    · exact Nat.le_refl e

theorem digit_run_end_go_digits (chars : List Char) :
    ∀ fuel e m, e ≤ m → m < digit_run_end_go chars fuel e →
      char_at_is_digit chars m = true := by
  intro fuel
  induction fuel with
  | zero => intro e m hem hm; simp [digit_run_end_go] at hm; omega
  | succ n ih =>
    intro e m hem hm
    unfold digit_run_end_go at hm
    by_cases hd : char_at_is_digit chars e = true
    · rw [if_pos hd] at hm
      rcases Nat.eq_or_lt_of_le hem with he | he
      · rw [← he]; exact hd
      · exact ih (e + 1) m he hm
    · rw [if_neg hd] at hm; omega

theorem digit_run_end_go_not_digit (chars : List Char) :
    ∀ fuel e, chars.length ≤ e + fuel →
      char_at_is_digit chars (digit_run_end_go chars fuel e) = false := by
  intro fuel
  induction fuel with
  | zero =>
    intro e he
    simp only [digit_run_end_go]
    exact char_at_is_digit_of_ge (by omega)
  | succ n ih =>
    intro e he
    unfold digit_run_end_go
    by_cases hd : char_at_is_digit chars e = true
    · rw [if_pos hd]; exact ih (e + 1) (by omega)
    · rw [if_neg hd]; exact Bool.eq_false_iff.mpr hd

theorem digit_run_end_go_eq (chars : List Char) :
    ∀ fuel e f, e ≤ f → f ≤ e + fuel →
      (∀ m, e ≤ m → m < f → char_at_is_digit chars m = true) →
      char_at_is_digit chars f = false → digit_run_end_go chars fuel e = f := by
  intro fuel
  induction fuel with
  | zero => intro e f h1 h2 _ _; simp only [digit_run_end_go]; omega
  | succ n ih =>
    intro e f h1 h2 hd hf
    unfold digit_run_end_go
    rcases Nat.eq_or_lt_of_le h1 with he | he
    · rw [← he] at hf ⊢
      rw [if_neg (Bool.eq_false_iff.mp hf)]
    · rw [if_pos (hd e (Nat.le_refl e) he)]
      exact ih (e + 1) f he (by omega) (fun m hm1 hm2 => hd m (by omega) hm2) hf

theorem digit_run_end_ge (chars : List Char) (e : Nat) : e ≤ digit_run_end chars e :=
  digit_run_end_go_ge chars _ e

theorem digit_run_end_digits {chars : List Char} {e m : Nat} (h1 : e ≤ m)
    (h2 : m < digit_run_end chars e) : char_at_is_digit chars m = true :=
  digit_run_end_go_digits chars _ e m h1 h2

theorem digit_run_end_not_digit (chars : List Char) (e : Nat) :
    char_at_is_digit chars (digit_run_end chars e) = false := by
  by_cases h : e ≤ chars.length
  · exact digit_run_end_go_not_digit chars (chars.length - e) e (by omega)
  · unfold digit_run_end
    rw [Nat.sub_eq_zero_of_le (by omega)]
    simp only [digit_run_end_go]
    exact char_at_is_digit_of_ge (by omega)

theorem digit_run_end_eq {chars : List Char} {e f : Nat} (h1 : e ≤ f)
    (h2 : f ≤ chars.length)
    (hd : ∀ m, e ≤ m → m < f → char_at_is_digit chars m = true)
    (hf : char_at_is_digit chars f = false) : digit_run_end chars e = f :=
  digit_run_end_go_eq chars (chars.length - e) e f h1 (by omega) hd hf

/-! ## The spec's notion of a placeholder token, and its equivalence with
`type_param_placeholder_span` -/

/-- The token shape stated by the spec (§4.5): the literal character `T` at
`start`, one or more decimal digits filling `[start + 1, fin)`, the character
before `T` (if any) not an identifier character, and the character at `fin`
(if any) not an identifier character. -/
def spec_placeholder_token (chars : List Char) (start fin : Nat) : Prop :=
  chars.get? start = some 'T' ∧
  start + 2 ≤ fin ∧
  (∀ m, start + 1 ≤ m → m < fin → char_at_is_digit chars m = true) ∧
  (start = 0 ∨ ∀ c, chars.get? (start - 1) = some c → is_type_param_ident_char c = false) ∧
  (∀ c, chars.get? fin = some c → is_type_param_ident_char c = false)

theorem digit_is_ident {c : Char} (h : c.isDigit = true) :
    is_type_param_ident_char c = true := by
  unfold is_type_param_ident_char Char.isAlphanum
  rw [h]
  simp

theorem spec_token_fin_le {chars : List Char} {start fin : Nat}
    (h : spec_placeholder_token chars start fin) : fin ≤ chars.length := by
  obtain ⟨_, h2, h3, _, _⟩ := h
  by_contra hlt
  have hl : chars.length < fin := by omega
  have hs : start + 1 < chars.length :=
    char_at_is_digit_lt (h3 (start + 1) (Nat.le_refl _) (by omega))
  have := h3 chars.length (by omega) hl
  rw [char_at_is_digit_of_ge (Nat.le_refl _)] at this
  cases this

theorem bool_of_not_not {b : Bool} (h : ¬ (!b) = true) : b = true := by
  cases hb : b
  · exact absurd (by rw [hb]; rfl) h
  · rfl

theorem span_eq_some_iff (chars : List Char) (start ds fin : Nat) :
    type_param_placeholder_span chars start = some (ds, fin) ↔
      ds = start + 1 ∧ spec_placeholder_token chars start fin := by
  unfold type_param_placeholder_span
  constructor
  · intro h
    split_ifs at h with h1 h2 h3 h4
    have h' := Option.some.inj h
    have hds : start + 1 = ds := congrArg Prod.fst h'
    have hfin : digit_run_end chars (start + 1) = fin := congrArg Prod.snd h'
    have hT : chars.get? start = some 'T' := not_not.mp h1
    have hd : char_at_is_digit chars (start + 1) = true := bool_of_not_not h2
    have hprev : (start == 0 ||
        ! is_type_param_ident_char ((chars.get? (start - 1)).getD ' ')) = true :=
      bool_of_not_not h3
    have hnext : (digit_run_end chars (start + 1) == chars.length ||
        ! is_type_param_ident_char
          ((chars.get? (digit_run_end chars (start + 1))).getD ' ')) = true :=
      bool_of_not_not h4
    subst hds
    subst hfin
    refine ⟨rfl, hT, ?_, ?_, ?_, ?_⟩
    · have hge := digit_run_end_ge chars (start + 1)
      rcases Nat.eq_or_lt_of_le hge with he | he
      · exfalso
        have hnd := digit_run_end_not_digit chars (start + 1)
        rw [← he] at hnd
        rw [hnd] at hd
        cases hd
      · omega
    · intro m hm1 hm2
      exact digit_run_end_digits hm1 hm2
    · rcases Bool.or_eq_true_iff.mp hprev with h0 | hni
      · exact Or.inl (by simpa using h0)
      · refine Or.inr (fun c hc => ?_)
        rw [hc] at hni
        simpa using hni
    · intro c hc
      rcases Bool.or_eq_true_iff.mp hnext with h0 | hni
      · exfalso
        have hlen : digit_run_end chars (start + 1) = chars.length := by
          simpa using h0
        rw [hlen, List.get?_eq_none.mpr (Nat.le_refl _)] at hc
        cases hc
      · rw [hc] at hni
        simpa using hni
  · rintro ⟨hds, htok⟩
    subst hds
    obtain ⟨hT, hlen2, hdig, hprev, hnext⟩ := htok
    have hfl : fin ≤ chars.length := spec_token_fin_le ⟨hT, hlen2, hdig, hprev, hnext⟩
    have hnd : char_at_is_digit chars fin = false := by
      by_cases hfin : fin < chars.length
      · unfold char_at_is_digit
        cases hg : chars.get? fin with
        | none => rfl
        | some c =>
          have hni := hnext c hg
          by_cases hcd : c.isDigit = true
          · rw [digit_is_ident hcd] at hni; cases hni
          · exact Bool.eq_false_iff.mpr hcd
      · exact char_at_is_digit_of_ge (by omega)
    have hdre : digit_run_end chars (start + 1) = fin :=
      digit_run_end_eq (by omega) hfl (fun m h1 h2 => hdig m h1 h2) hnd
    rw [if_neg (not_not.mpr hT)]
    rw [if_neg (by rw [hdig (start + 1) (Nat.le_refl _) (by omega)]; simp)]
    have hprev' : (start == 0 ||
        ! is_type_param_ident_char ((chars.get? (start - 1)).getD ' ')) = true := by
      rcases hprev with h0 | hni
      · subst h0; rfl
      · cases hs : start with
        | zero => rfl
        | succ n =>
          have hsl : start < chars.length := (List.get?_eq_some.mp hT).1
          cases hg : chars.get? (start - 1) with
          | none =>
            exfalso
            have := List.get?_eq_none.mp hg
            omega
          | some c =>
            rw [← hs, hg]
            simp [hni c hg]
    rw [if_neg (by rw [hprev']; simp)]
    have hnext' : (digit_run_end chars (start + 1) == chars.length ||
        ! is_type_param_ident_char
          ((chars.get? (digit_run_end chars (start + 1))).getD ' ')) = true := by
      rw [hdre]
      rcases Nat.eq_or_lt_of_le hfl with he | he
      · simp [he]
      · cases hg : chars.get? fin with
        | none =>
          exfalso
          have := List.get?_eq_none.mp hg
          omega
        | some c => simp [hnext c hg]
    rw [if_neg (by rw [hnext']; simp)]
    rw [hdre]

/-! ## Corollaries of the span characterization -/

theorem span_bounds {chars : List Char} {start ds fin : Nat}
    (h : type_param_placeholder_span chars start = some (ds, fin)) :
    ds = start + 1 ∧ start + 2 ≤ fin ∧ start < chars.length ∧ fin ≤ chars.length := by
  obtain ⟨hds, htok⟩ := (span_eq_some_iff chars start ds fin).mp h
  exact ⟨hds, htok.2.1, (List.get?_eq_some.mp htok.1).1, spec_token_fin_le htok⟩

theorem span_token {chars : List Char} {start ds fin : Nat}
    (h : type_param_placeholder_span chars start = some (ds, fin)) :
    spec_placeholder_token chars start fin :=
  ((span_eq_some_iff chars start ds fin).mp h).2

theorem span_none_of_not_T {chars : List Char} {i : Nat} (h : chars.get? i ≠ some 'T') :
    type_param_placeholder_span chars i = none := by
  unfold type_param_placeholder_span
  rw [if_pos h]

/-- Two placeholder spans cannot overlap: an earlier span ends strictly
before a later span starts. -/
theorem span_span_sep {chars : List Char} {j p ds' e' ds e : Nat}
    (hj : type_param_placeholder_span chars j = some (ds', e'))
    (hp : type_param_placeholder_span chars p = some (ds, e)) (hjp : j < p) : e' < p := by
  obtain ⟨hds', hj2, _, _⟩ := span_bounds hj
  obtain ⟨hTj, _, hdigj, _, _⟩ := span_token hj
  obtain ⟨hTp, _, _, hprevp, _⟩ := span_token hp
  by_contra hge
  rcases Nat.lt_or_ge p e' with hlt | hge2
  · rcases Nat.eq_or_lt_of_le (Nat.succ_le_of_lt hjp) with he | he
    · -- p = j + 1 is within the digit run, but `chars[p] = 'T'` is not a digit
      have := hdigj p (by omega) hlt
      unfold char_at_is_digit at this
      rw [hTp] at this
      simp at this
    · have := hdigj p (by omega) hlt
      unfold char_at_is_digit at this
      rw [hTp] at this
      simp at this
  · -- then e' = p, but chars[p - 1] is a digit, contradicting the boundary check
    have hep : e' = p := by omega
    have hdig : char_at_is_digit chars (p - 1) = true := hdigj (p - 1) (by omega) (by omega)
    unfold char_at_is_digit at hdig
    cases hg : chars.get? (p - 1) with
    | none => rw [hg] at hdig; cases hdig
    | some c =>
      rw [hg] at hdig
      have hident := digit_is_ident hdig
      rcases hprevp with h0 | hni
      · omega
      · rw [hni c hg] at hident
        cases hident

/-! ## Characterization of the residual-placeholder scan -/

theorem contains_go_sound (chars : List Char) :
    ∀ fuel i, contains_go chars fuel i = true →
      ∃ p ds fin, i ≤ p ∧ type_param_placeholder_span chars p = some (ds, fin) := by
  intro fuel
  induction fuel with
  | zero => intro i h; cases h
  | succ n ih =>
    intro i h
    unfold contains_go at h
    by_cases hi : i < chars.length
    · rw [if_pos hi] at h
      cases hs : type_param_placeholder_span chars i with
      | none =>
        rw [hs] at h
        obtain ⟨p, ds, fin, hp1, hp2⟩ := ih (i + 1) h
        exact ⟨p, ds, fin, by omega, hp2⟩
      | some v => exact ⟨i, v.1, v.2, Nat.le_refl i, hs⟩
    · rw [if_neg hi] at h; cases h

theorem contains_go_complete (chars : List Char) :
    ∀ fuel i p ds fin, i ≤ p → type_param_placeholder_span chars p = some (ds, fin) →
      chars.length ≤ i + fuel → contains_go chars fuel i = true := by
  intro fuel
  induction fuel with
  | zero =>
    intro i p ds fin hip hp hlen
    obtain ⟨_, _, hpl, _⟩ := span_bounds hp
    omega
  | succ n ih =>
    intro i p ds fin hip hp hlen
    obtain ⟨_, _, hpl, _⟩ := span_bounds hp
    unfold contains_go
    rw [if_pos (by omega)]
    cases hs : type_param_placeholder_span chars i with
    | none =>
      have hne : i ≠ p := fun he => by rw [he, hp] at hs; cases hs
      exact ih (i + 1) p ds fin (by omega) hp (by omega)
    | some v =>
      obtain ⟨ds2, e2⟩ := v
      obtain ⟨hds, hlt, _, _⟩ := span_bounds hs
      have hie : i < e2 := by omega
      simp [hie]

theorem contains_unresolved_iff (s : String) :
    contains_unresolved_type_param s = true ↔
      ∃ p ds fin, type_param_placeholder_span s.toList p = some (ds, fin) := by
  constructor
  · intro h
    obtain ⟨p, ds, fin, _, hp⟩ := contains_go_sound s.toList s.toList.length 0 h
    exact ⟨p, ds, fin, hp⟩
  · rintro ⟨p, ds, fin, hp⟩
    exact contains_go_complete s.toList s.toList.length 0 p ds fin (Nat.zero_le p) hp
      (by omega)

/-! ## Slice lemmas -/

theorem slice_get? (chars : List Char) (a b m : Nat) :
    (slice chars a b).get? m = if m < b - a then chars.get? (a + m) else none := by
  unfold slice
  by_cases h : m < b - a
  · rw [if_pos h, List.get?_take h, List.get?_drop]
  · rw [if_neg h]
    refine List.get?_eq_none.mpr ?_
    calc ((chars.drop a).take (b - a)).length ≤ b - a := by
          rw [List.length_take]; exact Nat.min_le_left _ _
      _ ≤ m := by omega

theorem slice_length (chars : List Char) (a b : Nat) :
    (slice chars a b).length = min (b - a) (chars.length - a) := by
  simp [slice, List.length_take, List.length_drop]

/-- The characters of a recognized span: the literal `T`, then a non-empty
all-digit slice. -/
theorem slice_span_shape {chars : List Char} {p e : Nat}
    (h : type_param_placeholder_span chars p = some (p + 1, e)) :
    slice chars p e = 'T' :: slice chars (p + 1) e ∧
      slice chars (p + 1) e ≠ [] ∧
      ∀ d ∈ slice chars (p + 1) e, d.isDigit = true := by
  obtain ⟨_, hlen2, hpl, hfl⟩ := span_bounds h
  obtain ⟨hT, _, hdig, _, _⟩ := span_token h
  have hp1 : p + 1 < chars.length := by
    have := hdig (p + 1) (Nat.le_refl _) (by omega)
    exact char_at_is_digit_lt this
  refine ⟨?_, ?_, ?_⟩
  · apply List.ext_get?
    intro m
    rw [slice_get?]
    cases m with
    | zero =>
      rw [if_pos (by omega)]
      simpa using hT
    | succ k =>
      rw [List.get?_cons_succ, slice_get?]
      by_cases hk : k < e - (p + 1)
      · rw [if_pos (by omega), if_pos hk]
        congr 1
        omega
      · rw [if_neg (by omega), if_neg hk]
  · intro hc
    have := congrArg List.length hc
    rw [slice_length] at this
    simp at this
    omega
  · intro d hd
    obtain ⟨n, hn⟩ := List.mem_iff_get?.mp hd
    rw [slice_get?] at hn
    by_cases hlt : n < e - (p + 1)
    · rw [if_pos hlt] at hn
      have := hdig (p + 1 + n) (by omega) (by omega)
      unfold char_at_is_digit at this
      rw [hn] at this
      exact this
    · rw [if_neg hlt] at hn; cases hn

/-! ## An untouched placeholder survives substitution.

The scanner of `substitute_type_parameters` copies a placeholder token
verbatim when its index is out of range; the lemmas below show that the copied
token is again a placeholder token of the output string (its neighbours in
the output are the verbatim-copied non-identifier neighbours from the input),
so `contains_unresolved_type_param` finds it. -/

theorem substitute_go_after_token {chars : List Char} (ta : List String) {p e : Nat}
    (hspan : type_param_placeholder_span chars p = some (p + 1, e)) (fuel' : Nat) :
    substitute_go chars ta fuel' e = [] ∨
      ∃ c B', substitute_go chars ta fuel' e = c :: B' ∧
        is_type_param_ident_char c = false := by
  cases fuel' with
  | zero => exact Or.inl rfl
  | succ n =>
    have hnotT : chars.get? e ≠ some 'T' := by
      intro hT
      have := (span_token hspan).2.2.2.2 'T' hT
      rw [show is_type_param_ident_char 'T' = true from by decide] at this
      cases this
    have hnone := span_none_of_not_T hnotT
    cases hg : chars.get? e with
    | none =>
      refine Or.inl ?_
      simp only [substitute_go, hnone, hg]
    | some c =>
      refine Or.inr ⟨c, substitute_go chars ta n (e + 1), ?_, (span_token hspan).2.2.2.2 c hg⟩
      simp only [substitute_go, hnone, hg]

theorem substitute_go_reach {chars : List Char} {ta : List String} {p e : Nat}
    (hspan : type_param_placeholder_span chars p = some (p + 1, e))
    (hidx : ta.get? (digits_to_nat (slice chars (p + 1) e)) = none) :
    ∀ fuel j, j ≤ p → chars.length ≤ j + fuel →
      ∃ A B, substitute_go chars ta fuel j = A ++ slice chars p e ++ B ∧
        ((A = [] ∧ j = p) ∨ ∃ A' c, A = A' ++ [c] ∧ is_type_param_ident_char c = false) ∧
        (B = [] ∨ ∃ c B', B = c :: B' ∧ is_type_param_ident_char c = false) := by
  obtain ⟨_, hpe, hpl, hel⟩ := span_bounds hspan
  intro fuel
  induction fuel with
  | zero => intro j hjp hlen; omega
  | succ n ih =>
    intro j hjp hlen
    rcases Nat.eq_or_lt_of_le hjp with hj | hj
    · subst hj
      refine ⟨[], substitute_go chars ta n e, ?_, Or.inl ⟨rfl, rfl⟩,
        substitute_go_after_token ta hspan n⟩
      simp only [substitute_go, hspan, hidx, List.nil_append]
    · cases hs : type_param_placeholder_span chars j with
      | none =>
        cases hg : chars.get? j with
        | none =>
          have := List.get?_eq_none.mp hg
          omega
        | some c =>
          obtain ⟨A, B, hout, hA, hB⟩ := ih (j + 1) (by omega) (by omega)
          refine ⟨c :: A, B, ?_, ?_, hB⟩
          · simp only [substitute_go, hs, hg, hout, List.cons_append]
          · rcases hA with ⟨hA0, hjp1⟩ | ⟨A', c', hAc, hic⟩
            · subst hA0
              refine Or.inr ⟨[], c, by simp, ?_⟩
              obtain ⟨_, _, _, hprev, _⟩ := span_token hspan
              rcases hprev with h0 | hni
              · omega
              · exact hni c (by rw [show p - 1 = j from by omega]; exact hg)
            · subst hAc
              exact Or.inr ⟨c :: A', c', by simp, hic⟩
      | some v =>
        obtain ⟨ds2, e2⟩ := v
        obtain ⟨hds2, hje2, _, _⟩ := span_bounds hs
        subst hds2
        have hsep : e2 < p := span_span_sep hs hspan hj
        obtain ⟨A, B, hout, hA, hB⟩ := ih e2 (by omega) (by omega)
        rcases hA with ⟨_, hep⟩ | ⟨A', c', hAc, hic⟩
        · omega
        · subst hAc
          refine ⟨(match ta.get? (digits_to_nat (slice chars (j + 1) e2)) with
              | some type_arg => type_arg.toList
              | none => slice chars j e2) ++ (A' ++ [c']), B, ?_, ?_, hB⟩
          · simp only [substitute_go, hs, hout]
            simp [List.append_assoc]
          · exact Or.inr ⟨(match ta.get? (digits_to_nat (slice chars (j + 1) e2)) with
              | some type_arg => type_arg.toList
              | none => slice chars j e2) ++ A', c', by simp, hic⟩

/-- A copied token with non-identifier (or absent) neighbours is a
placeholder token of the surrounding list. -/
theorem token_in_output {A ds B : List Char} (hne : ds ≠ [])
    (hdig : ∀ d ∈ ds, d.isDigit = true)
    (hA : A = [] ∨ ∃ A' c, A = A' ++ [c] ∧ is_type_param_ident_char c = false)
    (hB : B = [] ∨ ∃ c B', B = c :: B' ∧ is_type_param_ident_char c = false) :
    spec_placeholder_token (A ++ ('T' :: (ds ++ B))) A.length (A.length + 1 + ds.length) := by
  have hds1 : 1 ≤ ds.length := List.length_pos.mpr hne
  have happ : ∀ n : Nat, A.length ≤ n →
      (A ++ ('T' :: (ds ++ B))).get? n = ('T' :: (ds ++ B)).get? (n - A.length) :=
    fun _ h => List.get?_append_right h
  refine ⟨?_, by omega, ?_, ?_, ?_⟩
  · rw [happ A.length (Nat.le_refl _), Nat.sub_self]
    rfl
  · intro m hm1 hm2
    unfold char_at_is_digit
    rw [happ m (by omega)]
    obtain ⟨k, hk⟩ : ∃ k, m - A.length = k + 1 := ⟨m - A.length - 1, by omega⟩
    rw [hk, List.get?_cons_succ]
    have h2 : (ds ++ B).get? k = ds.get? k := List.get?_append (by omega)
    rw [h2]
    cases hg : ds.get? k with
    | none =>
      have := List.get?_eq_none.mp hg
      omega
    | some d => exact hdig d (List.get?_mem hg)
  · rcases hA with hA0 | ⟨A', c, hAc, hic⟩
    · exact Or.inl (by simp [hA0])
    · refine Or.inr (fun c' hc' => ?_)
      subst hAc
      rw [show (A' ++ [c]).length - 1 = A'.length from by simp] at hc'
      have h3 : ((A' ++ [c]) ++ ('T' :: (ds ++ B))).get? A'.length =
          (A' ++ [c]).get? A'.length := List.get?_append (by simp)
      rw [h3] at hc'
      have h4 : (A' ++ [c]).get? A'.length = [c].get? (A'.length - A'.length) :=
        List.get?_append_right (Nat.le_refl _)
      rw [h4, Nat.sub_self] at hc'
      cases hc'
      exact hic
  · intro c hc
    rw [happ (A.length + 1 + ds.length) (by omega)] at hc
    rw [show A.length + 1 + ds.length - A.length = ds.length + 1 from by omega] at hc
    rw [List.get?_cons_succ] at hc
    have h5 : (ds ++ B).get? ds.length = B.get? (ds.length - ds.length) :=
      List.get?_append_right (Nat.le_refl _)
    rw [h5, Nat.sub_self] at hc
    rcases hB with hB0 | ⟨c1, B', hBc, hic⟩
    · rw [hB0] at hc
      cases hc
    · rw [hBc] at hc
      cases hc
      exact hic

/-- The key fact behind the spec's "fail on any remaining placeholder"
clause: a placeholder whose index is out of range of the type-argument list
leaves a placeholder token in the substituted string. -/
theorem contains_substitute_of_out_of_range {p : String} {ta : List String}
    {i ds fin : Nat} (hspan : type_param_placeholder_span p.toList i = some (ds, fin))
    (hlen : ta.length ≤ digits_to_nat (slice p.toList ds fin)) :
    contains_unresolved_type_param (substitute_type_parameters p ta) = true := by
  obtain ⟨hds, hif, hil, hfl⟩ := span_bounds hspan
  subst hds
  have hidx : ta.get? (digits_to_nat (slice p.toList (i + 1) fin)) = none :=
    List.get?_eq_none.mpr hlen
  obtain ⟨A, B, hout, hA, hB⟩ :=
    substitute_go_reach hspan hidx p.toList.length 0 (Nat.zero_le i) (by omega)
  obtain ⟨hsl, hslne, hsld⟩ := slice_span_shape hspan
  have hA' : A = [] ∨ ∃ A' c, A = A' ++ [c] ∧ is_type_param_ident_char c = false := by
    rcases hA with ⟨h0, _⟩ | h
    · exact Or.inl h0
    · exact Or.inr h
  have htok := token_in_output hslne hsld hA' hB
  have hout' : substitute_go p.toList ta p.toList.length 0 =
      A ++ ('T' :: (slice p.toList (i + 1) fin ++ B)) := by
    rw [hout, hsl]
    simp [List.append_assoc]
  unfold contains_unresolved_type_param substitute_type_parameters
  have hlist : (String.mk (substitute_go p.toList ta p.toList.length 0)).toList =
      substitute_go p.toList ta p.toList.length 0 := rfl
  rw [hlist, hout']
  have hspan2 : type_param_placeholder_span (A ++ ('T' :: (slice p.toList (i + 1) fin ++ B)))
      A.length = some (A.length + 1, A.length + 1 + (slice p.toList (i + 1) fin).length) :=
    (span_eq_some_iff _ _ _ _).mpr ⟨rfl, htok⟩
  exact contains_go_complete _ _ 0 A.length _ _ (Nat.zero_le _) hspan2 (by omega)

/-! ## Behaviour of the parameter-resolution loop -/

theorem resolve_params_go_ok {ta params : List String}
    (h : ∀ p ∈ params, contains_unresolved_type_param (substitute_type_parameters p ta) = false) :
    resolve_params_go ta params =
      .ok (params.map (fun p => substitute_type_parameters p ta)) := by
  induction params with
  | nil => rfl
  | cons p rest ih =>
    have hp := h p (List.mem_cons_self p rest)
    unfold resolve_params_go
    rw [if_neg (by rw [hp]; exact Bool.false_ne_true)]
    rw [ih (fun q hq => h q (List.mem_cons_of_mem p hq))]
    rfl

theorem resolve_params_go_error {ta params : List String}
    (h : ∃ p ∈ params, contains_unresolved_type_param (substitute_type_parameters p ta) = true) :
    ∃ p ∈ params, contains_unresolved_type_param (substitute_type_parameters p ta) = true ∧
      resolve_params_go ta params = .error (.unresolvedTypeParam p ta) := by
  induction params with
  | nil => obtain ⟨p, hp, _⟩ := h; cases hp
  | cons p rest ih =>
    by_cases hc : contains_unresolved_type_param (substitute_type_parameters p ta) = true
    · refine ⟨p, List.mem_cons_self p rest, hc, ?_⟩
      unfold resolve_params_go
      rw [if_pos hc]
    · obtain ⟨q, hq, hqc, hqe⟩ : ∃ q ∈ rest,
          contains_unresolved_type_param (substitute_type_parameters q ta) = true ∧
          resolve_params_go ta rest = .error (.unresolvedTypeParam q ta) := by
        apply ih
        obtain ⟨q, hq, hqc⟩ := h
        rcases List.mem_cons.mp hq with he | hm
        · subst he; exact absurd hqc hc
        · exact ⟨q, hm, hqc⟩
      refine ⟨q, List.mem_cons_of_mem p hq, hqc, ?_⟩
      unfold resolve_params_go
      rw [if_neg hc, hqe]
      rfl

theorem resolve_params_go_error_inv {ta params : List String} {q : String}
    {ta' : List String}
    (h : resolve_params_go ta params = .error (.unresolvedTypeParam q ta')) :
    q ∈ params ∧ ta' = ta ∧
      contains_unresolved_type_param (substitute_type_parameters q ta) = true := by
  induction params with
  | nil => cases h
  | cons p rest ih =>
    unfold resolve_params_go at h
    by_cases hc : contains_unresolved_type_param (substitute_type_parameters p ta) = true
    · rw [if_pos hc] at h
      injection h with h'
      injection h' with h1 h2
      subst h1
      subst h2
      exact ⟨List.mem_cons_self p rest, rfl, hc⟩
    · rw [if_neg hc] at h
      cases he : resolve_params_go ta rest with
      | ok v => rw [he] at h; cases h
      | error e =>
        rw [he] at h
        have : e = .unresolvedTypeParam q ta' := by
          have : Except.error e = (Except.error (ComposeError.unresolvedTypeParam q ta')
              : Except ComposeError (List String)) := h
          injection this
        subst this
        obtain ⟨h1, h2, h3⟩ := ih he
        exact ⟨List.mem_cons_of_mem p h1, h2, h3⟩

/-! ## Behaviour of the step-resolution loop -/

theorem first_bad_ref_none_iff (labels : List (String × Nat)) :
    ∀ args i0, first_bad_ref labels i0 args = none ↔
      ∀ rstep ri, ArgInput.ref rstep ri ∈ args → (assoc_find rstep labels).isSome = true := by
  intro args
  induction args with
  | nil => intro i0; simp [first_bad_ref]
  | cons a rest ih =>
    intro i0
    cases a with
    | signer =>
      unfold first_bad_ref
      rw [ih (i0 + 1)]
      constructor
      · intro h rstep ri hin
        rcases List.mem_cons.mp hin with he | hm
        · cases he
        · exact h rstep ri hm
      · intro h rstep ri hm
        exact h rstep ri (List.mem_cons_of_mem _ hm)
    | literal v =>
      unfold first_bad_ref
      rw [ih (i0 + 1)]
      constructor
      · intro h rstep ri hin
        rcases List.mem_cons.mp hin with he | hm
        · cases he
        · exact h rstep ri hm
      · intro h rstep ri hm
        exact h rstep ri (List.mem_cons_of_mem _ hm)
    | ref s r =>
      unfold first_bad_ref
      by_cases hf : (assoc_find s labels).isSome = true
      · rw [if_pos hf, ih (i0 + 1)]
        constructor
        · intro h rstep ri hin
          rcases List.mem_cons.mp hin with he | hm
          · injection he with h1 h2
            subst h1
            exact hf
          · exact h rstep ri hm
        · intro h rstep ri hm
          exact h rstep ri (List.mem_cons_of_mem _ hm)
      · rw [if_neg hf]
        constructor
        · intro h; cases h
        · intro h
          exact absurd (h s r (List.mem_cons_self _ _)) hf

/-- Success-inversion for one iteration of the step-resolution loop: every
validation of the head step passed, and the loop continued on the tail with
the label registered. -/
theorem resolve_go_cons_ok {labels : List (String × Nat)} {acc : List ResolvedStep}
    {index : Nat} {step : StepInput} {rest : List StepInput} {r : List ResolvedStep}
    (h : resolve_steps_go labels acc index (step :: rest) = .ok r) :
    ∃ fid, rust_trim step.label ≠ "" ∧
      assoc_find (rust_trim step.label) labels = none ∧
      FunctionId.parse? step.function = some fid ∧
      first_invalid_type_argument step.type_arguments = none ∧
      first_bad_ref labels 0 step.args = none ∧
      resolve_steps_go ((rust_trim step.label, index) :: labels)
        ({ label := rust_trim step.label, function_id := fid,
           type_arguments := step.type_arguments, args := step.args } :: acc)
        (index + 1) rest = .ok r := by
  unfold resolve_steps_go at h
  by_cases h1 : rust_trim step.label = ""
  · rw [if_pos h1] at h; cases h
  · rw [if_neg h1] at h
    cases hfind : assoc_find (rust_trim step.label) labels with
    | some v =>
      rw [hfind] at h
      simp at h
    | none =>
      rw [hfind] at h
      simp only [Option.isSome_none, Bool.false_eq_true, if_false] at h
      cases hfid : FunctionId.parse? step.function with
      | none => rw [hfid] at h; cases h
      | some fid =>
        rw [hfid] at h
        cases hta : first_invalid_type_argument step.type_arguments with
        | some ta => rw [hta] at h; cases h
        | none =>
          rw [hta] at h
          cases hbr : first_bad_ref labels 0 step.args with
          | some v2 => rw [hbr] at h; obtain ⟨a1, a2⟩ := v2; cases h
          | none =>
            rw [hbr] at h
            exact ⟨fid, h1, rfl, rfl, rfl, rfl, h⟩

theorem resolve_go_ok_labels :
    ∀ (l : List StepInput) (labels : List (String × Nat)) (acc : List ResolvedStep)
      (index : Nat) (r : List ResolvedStep),
      resolve_steps_go labels acc index l = .ok r →
      ∀ s ∈ l, rust_trim s.label ≠ "" ∧ assoc_find (rust_trim s.label) labels = none := by
  intro l
  induction l with
  | nil => intro labels acc index r h s hs; cases hs
  | cons step rest ih =>
    intro labels acc index r h s hs
    obtain ⟨fid, h1, h2, h3, h4, h5, h6⟩ := resolve_go_cons_ok h
    rcases List.mem_cons.mp hs with he | hm
    · subst he; exact ⟨h1, h2⟩
    · obtain ⟨hne, hfind⟩ := ih _ _ _ _ h6 s hm
      refine ⟨hne, ?_⟩
      unfold assoc_find at hfind
      by_cases heq : rust_trim step.label = rust_trim s.label
      · rw [if_pos heq] at hfind; cases hfind
      · rw [if_neg heq] at hfind; exact hfind

theorem resolve_go_ok_pairwise :
    ∀ (l : List StepInput) (labels : List (String × Nat)) (acc : List ResolvedStep)
      (index : Nat) (r : List ResolvedStep),
      resolve_steps_go labels acc index l = .ok r →
      List.Pairwise (fun a b => rust_trim a.label ≠ rust_trim b.label) l := by
  intro l
  induction l with
  | nil => intro labels acc index r h; exact List.Pairwise.nil
  | cons step rest ih =>
    intro labels acc index r h
    obtain ⟨fid, h1, h2, h3, h4, h5, h6⟩ := resolve_go_cons_ok h
    refine List.Pairwise.cons ?_ (ih _ _ _ _ h6)
    intro s hs heq
    obtain ⟨_, hfind⟩ := resolve_go_ok_labels _ _ _ _ _ h6 s hs
    unfold assoc_find at hfind
    rw [if_pos heq] at hfind
    cases hfind

theorem resolve_go_ok_refs :
    ∀ (l₁ : List StepInput) (s : StepInput) (l₂ : List StepInput)
      (labels : List (String × Nat)) (acc : List ResolvedStep) (index : Nat)
      (r : List ResolvedStep),
      resolve_steps_go labels acc index (l₁ ++ s :: l₂) = .ok r →
      ∀ rstep ri, ArgInput.ref rstep ri ∈ s.args →
        (assoc_find rstep labels).isSome = true ∨ ∃ s' ∈ l₁, rust_trim s'.label = rstep := by
  intro l₁
  induction l₁ with
  | nil =>
    intro s l₂ labels acc index r h rstep ri hin
    obtain ⟨fid, _, _, _, _, h5, _⟩ := resolve_go_cons_ok h
    exact Or.inl ((first_bad_ref_none_iff labels s.args 0).mp h5 rstep ri hin)
  | cons x l₁' ih =>
    intro s l₂ labels acc index r h rstep ri hin
    obtain ⟨fid, h1, h2, h3, h4, h5, h6⟩ := resolve_go_cons_ok h
    rcases ih s l₂ _ _ _ _ h6 rstep ri hin with hsome | ⟨s', hs', he'⟩
    · unfold assoc_find at hsome
      by_cases heq : rust_trim x.label = rstep
      · exact Or.inr ⟨x, List.mem_cons_self _ _, heq⟩
      · rw [if_neg heq] at hsome
        exact Or.inl hsome
    · exact Or.inr ⟨s', List.mem_cons_of_mem _ hs', he'⟩

/-! ## The spec's view of module collection -/

/-- Modelled from the spec (§4.3): the discovery walk — each step's function
module followed by the struct modules of its parsed type arguments in
pre-order, in payload order. -/
def spec_discovery_walk : List ResolvedStep → List ModuleId
  | [] => []
  | step :: rest =>
    step.function_id.module_id ::
      ((step.type_arguments.filterMap parse_type_tag).bind tag_struct_modules ++
        spec_discovery_walk rest)

/-- Deduplication keeping the first occurrence, with fuel (the list length
suffices since each round removes at least the head). -/
def dedup_first_go : Nat → List ModuleId → List ModuleId
  | 0, _ => []
  | _ + 1, [] => []
  | fuel + 1, m :: rest => m :: dedup_first_go fuel (rest.filter (fun x => x ≠ m))

/-- Modelled from the spec (§4.3): "insertion order of first discovery" — the
discovery walk with later duplicates dropped. -/
def spec_first_discovery_order (steps : List ResolvedStep) : List ModuleId :=
  dedup_first_go (spec_discovery_walk steps).length (spec_discovery_walk steps)

/-! ## Order facts for the `BTreeSet` model -/

theorem char_list_lt_connex :
    ∀ a b : List Char, a ≠ b → char_list_lt a b = true ∨ char_list_lt b a = true := by
  intro a
  induction a with
  | nil =>
    intro b hne
    cases b with
    | nil => exact absurd rfl hne
    | cons c r => exact Or.inl rfl
  | cons c r ih =>
    intro b hne
    cases b with
    | nil => exact Or.inr rfl
    | cons c' r' =>
      unfold char_list_lt
      by_cases h1 : c.toNat < c'.toNat
      · exact Or.inl (by rw [if_pos h1])
      · by_cases h2 : c'.toNat < c.toNat
        · refine Or.inr ?_
          rw [if_pos h2]
        · have hc : c = c' := by
            apply Char.ext
            apply UInt32.ext
            simpa [Char.toNat] using show c.toNat = c'.toNat from by omega
          subst hc
          have hr : r ≠ r' := fun he => hne (by rw [he])
          rcases ih r' hr with hl | hl
          · exact Or.inl (by rw [if_neg h1, if_neg h2]; exact hl)
          · exact Or.inr (by rw [if_neg h1, if_neg h2]; exact hl)

theorem char_list_lt_trans :
    ∀ a b c : List Char, char_list_lt a b = true → char_list_lt b c = true →
      char_list_lt a c = true := by
  intro a
  induction a with
  | nil =>
    intro b c hab hbc
    cases b with
    | nil => cases hab
    | cons y ys =>
      cases c with
      | nil => cases hbc
      | cons z zs => rfl
  | cons x xs ih =>
    intro b c hab hbc
    cases b with
    | nil => cases hab
    | cons y ys =>
      cases c with
      | nil => cases hbc
      | cons z zs =>
        unfold char_list_lt at hab hbc ⊢
        by_cases hxy : x.toNat < y.toNat
        · by_cases hyz : y.toNat < z.toNat
          · rw [if_pos (by omega)]
          · rw [if_neg hyz] at hbc
            by_cases hzy : z.toNat < y.toNat
            · rw [if_pos hzy] at hbc; cases hbc
            · rw [if_pos (by omega)]
        · rw [if_neg hxy] at hab
          by_cases hyx : y.toNat < x.toNat
          · rw [if_pos hyx] at hab; cases hab
          · rw [if_neg hyx] at hab
            by_cases hyz : y.toNat < z.toNat
            · rw [if_pos (by omega)]
            · rw [if_neg hyz] at hbc
              by_cases hzy : z.toNat < y.toNat
              · rw [if_pos hzy] at hbc; cases hbc
              · rw [if_neg hzy] at hbc
                rw [if_neg (by omega), if_neg (by omega)]
                exact ih ys zs hab hbc

theorem string_eq_of_toList_eq {a b : String} (h : a.toList = b.toList) : a = b := by
  cases a
  cases b
  exact congrArg String.mk h

theorem module_lt_connex (a b : ModuleId) (hne : a ≠ b) :
    module_lt a b = true ∨ module_lt b a = true := by
  unfold module_lt
  by_cases h1 : a.address < b.address
  · exact Or.inl (by simp [h1])
  · by_cases h2 : b.address < a.address
    · exact Or.inr (by simp [h2])
    · have ha : a.address = b.address := by omega
      have hn : a.name.toList ≠ b.name.toList := by
        intro he
        have hname : a.name = b.name := string_eq_of_toList_eq he
        apply hne
        cases a
        cases b
        simp_all
      rcases char_list_lt_connex _ _ hn with hl | hl
      · refine Or.inl ?_
        rw [ha, hl]
        simp
      · refine Or.inr ?_
        rw [← ha, hl]
        simp

theorem module_lt_trans {a b c : ModuleId} (hab : module_lt a b = true)
    (hbc : module_lt b c = true) : module_lt a c = true := by
  unfold module_lt at hab hbc ⊢
  simp only [Bool.or_eq_true, Bool.and_eq_true, beq_iff_eq, decide_eq_true_eq] at hab hbc ⊢
  rcases hab with h1 | ⟨h1, h1'⟩
  · rcases hbc with h2 | ⟨h2, _⟩
    · exact Or.inl (by omega)
    · exact Or.inl (by omega)
  · rcases hbc with h2 | ⟨h2, h2'⟩
    · exact Or.inl (by omega)
    · exact Or.inr ⟨by omega, char_list_lt_trans _ _ _ h1' h2'⟩

theorem mem_btree_insert (m : ModuleId) :
    ∀ (l : List ModuleId) (x : ModuleId), x ∈ btree_insert m l ↔ x = m ∨ x ∈ l := by
  intro l
  induction l with
  | nil => intro x; simp [btree_insert]
  | cons y ys ih =>
    intro x
    unfold btree_insert
    by_cases h1 : module_lt m y = true
    · rw [if_pos h1]
      simp [List.mem_cons]
    · rw [if_neg h1]
      by_cases h2 : m = y
      · rw [if_pos h2]
        subst h2
        simp only [List.mem_cons]
        constructor
        · intro h; exact Or.inr h
        · rintro (he | h)
          · exact Or.inl he
          · exact h
      · rw [if_neg h2]
        simp only [List.mem_cons, ih]
        tauto

theorem btree_insert_sorted (m : ModuleId) :
    ∀ l : List ModuleId, List.Pairwise (fun a b => module_lt a b = true) l →
      List.Pairwise (fun a b => module_lt a b = true) (btree_insert m l) := by
  intro l
  induction l with
  | nil => intro _; simp [btree_insert]
  | cons y ys ih =>
    intro hs
    obtain ⟨hy, hys⟩ := List.pairwise_cons.mp hs
    unfold btree_insert
    by_cases h1 : module_lt m y = true
    · rw [if_pos h1]
      refine List.pairwise_cons.mpr ⟨?_, hs⟩
      intro z hz
      rcases List.mem_cons.mp hz with he | hm
      · subst he; exact h1
      · exact module_lt_trans h1 (hy z hm)
    · rw [if_neg h1]
      by_cases h2 : m = y
      · rw [if_pos h2]; exact hs
      · rw [if_neg h2]
        refine List.pairwise_cons.mpr ⟨?_, ih hys⟩
        intro z hz
        rcases (mem_btree_insert m ys z).mp hz with he | hm
        · rcases module_lt_connex m y h2 with hl | hl
          · exact absurd hl h1
          · rw [he]; exact hl
        · exact hy z hm

theorem mem_btree_insert_all :
    ∀ (mods acc : List ModuleId) (x : ModuleId),
      x ∈ btree_insert_all acc mods ↔ x ∈ acc ∨ x ∈ mods := by
  intro mods
  induction mods with
  | nil => intro acc x; simp [btree_insert_all]
  | cons m ms ih =>
    intro acc x
    unfold btree_insert_all
    simp only [List.foldl_cons]
    have := ih (btree_insert m acc) x
    unfold btree_insert_all at this
    rw [this, mem_btree_insert]
    simp [List.mem_cons]
    tauto

theorem btree_insert_all_sorted :
    ∀ (mods acc : List ModuleId),
      List.Pairwise (fun a b => module_lt a b = true) acc →
      List.Pairwise (fun a b => module_lt a b = true) (btree_insert_all acc mods) := by
  intro mods
  induction mods with
  | nil => intro acc h; exact h
  | cons m ms ih =>
    intro acc h
    unfold btree_insert_all
    simp only [List.foldl_cons]
    have := ih (btree_insert m acc) (btree_insert_sorted m acc h)
    unfold btree_insert_all at this
    exact this

theorem collect_step_tags_ok {label : String} :
    ∀ (tas : List String) (acc : List ModuleId),
      (∀ ta ∈ tas, (parse_type_tag ta).isSome = true) →
      ∃ res, collect_step_tags label acc tas = .ok res ∧
        (∀ x, x ∈ res ↔ x ∈ acc ∨
          ∃ ta ∈ tas, ∃ tag, parse_type_tag ta = some tag ∧ x ∈ tag_struct_modules tag) ∧
        (List.Pairwise (fun a b => module_lt a b = true) acc →
          List.Pairwise (fun a b => module_lt a b = true) res) := by
  intro tas
  induction tas with
  | nil =>
    intro acc _
    refine ⟨acc, rfl, ?_, fun h => h⟩
    intro x
    simp
  | cons ta rest ih =>
    intro acc hall
    have hta := hall ta (List.mem_cons_self _ _)
    cases hp : parse_type_tag ta with
    | none => rw [hp] at hta; cases hta
    | some tag =>
      obtain ⟨res, h1, h2, h3⟩ := ih (btree_insert_all acc (tag_struct_modules tag))
        (fun q hq => hall q (List.mem_cons_of_mem _ hq))
      refine ⟨res, ?_, ?_, ?_⟩
      · unfold collect_step_tags
        rw [hp]
        exact h1
      · intro x
        rw [h2 x, mem_btree_insert_all]
        constructor
        · rintro ((hx | hx) | ⟨q, hq, tg, hq1, hq2⟩)
          · exact Or.inl hx
          · exact Or.inr ⟨ta, List.mem_cons_self _ _, tag, hp, hx⟩
          · exact Or.inr ⟨q, List.mem_cons_of_mem _ hq, tg, hq1, hq2⟩
        · rintro (hx | ⟨q, hq, tg, hq1, hq2⟩)
          · exact Or.inl (Or.inl hx)
          · rcases List.mem_cons.mp hq with he | hm
            · subst he
              rw [hp] at hq1
              injection hq1 with hq1
              subst hq1
              exact Or.inl (Or.inr hq2)
            · exact Or.inr ⟨q, hm, tg, hq1, hq2⟩
      · intro hacc
        exact h3 (btree_insert_all_sorted _ _ hacc)

theorem collect_go_ok :
    ∀ (steps : List ResolvedStep) (acc : List ModuleId),
      (∀ step ∈ steps, ∀ ta ∈ step.type_arguments, (parse_type_tag ta).isSome = true) →
      ∃ res, collect_required_modules_go acc steps = .ok res ∧
        (∀ x, x ∈ res ↔ x ∈ acc ∨ x ∈ spec_discovery_walk steps) ∧
        (List.Pairwise (fun a b => module_lt a b = true) acc →
          List.Pairwise (fun a b => module_lt a b = true) res) := by
  intro steps
  induction steps with
  | nil =>
    intro acc _
    refine ⟨acc, rfl, ?_, fun h => h⟩
    intro x
    simp [spec_discovery_walk]
  | cons step rest ih =>
    intro acc hall
    obtain ⟨mid, hm1, hm2, hm3⟩ := collect_step_tags_ok step.type_arguments
      (btree_insert step.function_id.module_id acc)
      (fun q hq => hall step (List.mem_cons_self _ _) q hq)
    obtain ⟨res, h1, h2, h3⟩ := ih mid
      (fun s hs q hq => hall s (List.mem_cons_of_mem _ hs) q hq)
    refine ⟨res, ?_, ?_, ?_⟩
    · unfold collect_required_modules_go
      rw [hm1]
      exact h1
    · intro x
      rw [h2 x, hm2 x, mem_btree_insert]
      simp only [spec_discovery_walk, List.mem_cons, List.mem_append, List.mem_bind,
        List.mem_filterMap]
      constructor
      · rintro (((hx | hx) | ⟨q, hq, tg, hq1, hq2⟩) | hx)
        · exact Or.inr (Or.inl hx)
        · exact Or.inl hx
        · exact Or.inr (Or.inr (Or.inl ⟨tg, ⟨q, hq, hq1⟩, hq2⟩))
        · exact Or.inr (Or.inr (Or.inr hx))
      · rintro (hx | (hx | (⟨tg, ⟨q, hq, hq1⟩, hq2⟩ | hx)))
        · exact Or.inl (Or.inl (Or.inr hx))
        · exact Or.inl (Or.inl (Or.inl hx))
        · exact Or.inl (Or.inr ⟨q, hq, tg, hq1, hq2⟩)
        · exact Or.inr hx
    · intro hacc
      exact h3 (hm3 (btree_insert_sorted _ _ hacc))

/-! ## Dispatch lemmas for the literal encoders -/

theorem is_object_ne_literals {e : String} (h : is_object_type e = true) :
    e ≠ "bool" ∧ e ≠ "u8" ∧ e ≠ "u16" ∧ e ≠ "u32" ∧ e ≠ "u64" ∧ e ≠ "u128" ∧
      e ≠ "u256" ∧ e ≠ "i8" ∧ e ≠ "i16" ∧ e ≠ "i32" ∧ e ≠ "i64" ∧ e ≠ "i128" ∧
      e ≠ "i256" ∧ e ≠ "address" ∧ e ≠ "vector<u8>" := by
  refine ⟨?_, ?_, ?_, ?_, ?_, ?_, ?_, ?_, ?_, ?_, ?_, ?_, ?_, ?_, ?_⟩ <;>
    (intro heq; subst heq; exact absurd h (by decide))

theorem encode_literal_object {p : String} (v : JValue)
    (hobj : is_object_type (strip_reference (normalize_type_name p)) = true)
    (hamp : str_contains (strip_reference (normalize_type_name p)) '&' = false) :
    encode_literal p v = (parse_address_literal v).map address_bytes := by
  obtain ⟨n1, n2, n3, n4, n5, n6, n7, n8, n9, n10, n11, n12, n13, n14, n15⟩ :=
    is_object_ne_literals hobj
  unfold encode_literal
  rw [if_neg (by rw [hamp]; exact Bool.false_ne_true)]
  rw [if_neg n1, if_neg n2, if_neg n3, if_neg n4, if_neg n5, if_neg n6, if_neg n7,
    if_neg n8, if_neg n9, if_neg n10, if_neg n11, if_neg n12, if_neg n13, if_neg n14,
    if_neg n15, if_pos hobj]

theorem normalize_payload_object {p : String} (v : JValue)
    (hobj : is_object_type (strip_reference (normalize_type_name p)) = true)
    (hamp : str_contains (strip_reference (normalize_type_name p)) '&' = false) :
    normalize_literal_for_script_payload p v =
      (parse_address_literal v).map (fun a => JValue.str (to_hex_literal a)) := by
  obtain ⟨n1, n2, n3, n4, n5, n6, n7, n8, n9, n10, n11, n12, n13, n14, n15⟩ :=
    is_object_ne_literals hobj
  unfold normalize_literal_for_script_payload
  rw [if_neg (by rw [hamp]; exact Bool.false_ne_true)]
  rw [if_neg n1, if_neg n2, if_neg n3, if_neg n4, if_neg n5, if_neg n6, if_neg n7,
    if_neg n8, if_neg n9, if_neg n10, if_neg n11, if_neg n12, if_neg n13, if_neg n14,
    if_neg n15, if_pos hobj]

theorem encode_literal_address (v : JValue) :
    encode_literal "address" v = (parse_address_literal v).map address_bytes := rfl

theorem normalize_payload_address (v : JValue) :
    normalize_literal_for_script_payload "address" v =
      (parse_address_literal v).map (fun a => JValue.str (to_hex_literal a)) := rfl

theorem encode_literal_u64 (v : JValue) :
    encode_literal "u64" v = (parse_number_uint 64 "u64" v).map (le_bytes 8) := rfl

theorem normalize_payload_u64 (v : JValue) :
    normalize_literal_for_script_payload "u64" v =
      (parse_number_uint 64 "u64" v).map (fun n => JValue.str (toString n)) := rfl

theorem normalize_numeric_literal_empty {s : String} (h : rust_trim s = "") :
    normalize_numeric_literal (JValue.str s) = .error .emptyNumericString := by
  show (if rust_trim s = "" then
      (Except.error ComposeError.emptyNumericString : Except ComposeError String)
    else Except.ok (strip_suffix_n (rust_trim s))) = Except.error ComposeError.emptyNumericString
  rw [if_pos h]

theorem parse_number_uint_empty {s : String} (bits : Nat) (tn : String)
    (h : rust_trim s = "") :
    parse_number_uint bits tn (JValue.str s) = .error .emptyNumericString := by
  unfold parse_number_uint
  rw [show (do
      let text ← normalize_numeric_literal (JValue.str s)
      match rust_parse_uint bits text with
      | some n => Except.ok n
      | none => Except.error (.invalidNumericLiteral tn text) :
        Except ComposeError Nat) = _ from rfl]
  rw [normalize_numeric_literal_empty h]
  rfl

/-! ## The claims -/

/-- C1: Generic substitution is textual and token-bounded: the placeholder
scanner recognizes exactly the spec's tokens — a literal `T` followed by one
or more decimal digits, with a non-identifier (or absent) character on each
side — and the two stated examples substitute exactly the bracketed
placeholder occurrence (`T0Coin` is untouched). -/
theorem claim_c1_substitution_token_bounded :
    (∀ (chars : List Char) (start ds fin : Nat),
      type_param_placeholder_span chars start = some (ds, fin) ↔
        ds = start + 1 ∧ spec_placeholder_token chars start fin) ∧
    substitute_type_parameters "0x1::object::Object<T0>" ["0x1::fungible_asset::Metadata"] =
      "0x1::object::Object<0x1::fungible_asset::Metadata>" ∧
    substitute_type_parameters "0x1::my::T0Coin<T0>" ["u8"] = "0x1::my::T0Coin<u8>" :=
  ⟨span_eq_some_iff, by decide, by decide⟩

/-- Witness for C1: the token characterization applied at the concrete span
of `T1` inside `vector<T1>`. -/
theorem claim_c1_witness : spec_placeholder_token "vector<T1>".toList 7 9 :=
  ((claim_c1_substitution_token_bounded.1 "vector<T1>".toList 7 8 9).mp (by decide)).2

/-- C2: a detected placeholder `T<i>` is replaced verbatim by the `i`-th type
argument when `i < k` (the in-range case of `List.get?`) and copied untouched
otherwise; parameter resolution succeeds exactly when no substituted
parameter retains a placeholder token, and otherwise fails with an error
naming the original parameter string and the supplied type arguments; and in
particular a detected placeholder with index `≥ k` always leaves a
placeholder token in the substituted string (so resolution fails). -/
theorem claim_c2_placeholder_resolution :
    (∀ (chars : List Char) (ta : List String) (fuel i ds e : Nat),
      type_param_placeholder_span chars i = some (ds, e) →
      (∀ t, ta.get? (digits_to_nat (slice chars ds e)) = some t →
        substitute_go chars ta (fuel + 1) i = t.toList ++ substitute_go chars ta fuel e) ∧
      (ta.get? (digits_to_nat (slice chars ds e)) = none →
        substitute_go chars ta (fuel + 1) i =
          slice chars i e ++ substitute_go chars ta fuel e)) ∧
    (∀ (step : ResolvedStep) (mi : ModuleInfo) (params : List String),
      assoc_find step.function_id.function mi.functions = some params →
      ((∀ p ∈ params, contains_unresolved_type_param
          (substitute_type_parameters p step.type_arguments) = false) →
        resolve_function_params step mi =
          .ok (params.map (fun p => substitute_type_parameters p step.type_arguments))) ∧
      ((∃ p ∈ params, contains_unresolved_type_param
          (substitute_type_parameters p step.type_arguments) = true) →
        ∃ p ∈ params, contains_unresolved_type_param
            (substitute_type_parameters p step.type_arguments) = true ∧
          resolve_function_params step mi =
            .error (.unresolvedTypeParam p step.type_arguments)) ∧
      (∀ q ta', resolve_function_params step mi = .error (.unresolvedTypeParam q ta') →
        q ∈ params ∧ ta' = step.type_arguments ∧
          contains_unresolved_type_param
            (substitute_type_parameters q step.type_arguments) = true)) ∧
    (∀ (p : String) (ta : List String) (i ds fin : Nat),
      type_param_placeholder_span p.toList i = some (ds, fin) →
      ta.length ≤ digits_to_nat (slice p.toList ds fin) →
      contains_unresolved_type_param (substitute_type_parameters p ta) = true) := by
  refine ⟨?_, ?_, ?_⟩
  · intro chars ta fuel i ds e hspan
    constructor
    · intro t ht
      simp only [substitute_go, hspan, ht]
    · intro hnone
      simp only [substitute_go, hspan, hnone]
  · intro step mi params hfind
    have hunfold : resolve_function_params step mi =
        resolve_params_go step.type_arguments params := by
      unfold resolve_function_params
      rw [hfind]
    refine ⟨?_, ?_, ?_⟩
    · intro hall
      rw [hunfold]
      exact resolve_params_go_ok hall
    · intro hex
      obtain ⟨p, hp, hc, he⟩ := resolve_params_go_error hex
      exact ⟨p, hp, hc, by rw [hunfold]; exact he⟩
    · intro q ta' he
      rw [hunfold] at he
      exact resolve_params_go_error_inv he
  · intro p ta i ds fin hspan hlen
    exact contains_substitute_of_out_of_range hspan hlen

/-- Witness for C2: the out-of-range placeholder `T1` of `vector<T1>` with a
single supplied type argument survives substitution as a residual token. -/
theorem claim_c2_witness :
    contains_unresolved_type_param (substitute_type_parameters "vector<T1>" ["u8"]) = true :=
  claim_c2_placeholder_resolution.2.2 "vector<T1>" ["u8"] 7 8 9 (by decide) (by decide)

/-- C3: the `u64` VM-binary encoding of the string literal `"205000000n"`
equals that of the number literal `205000000` (both the little-endian BCS
bytes of `205000000`); its script-payload encoding is the JSON string
`"205000000"`; numeric literals may be numbers or strings, a string literal
has one trailing `n` stripped after trimming; and an empty (or
whitespace-only) numeric string literal is rejected. -/
theorem claim_c3_numeric_literal :
    encode_literal "u64" (JValue.str "205000000n") =
      encode_literal "u64" (JValue.num 205000000) ∧
    encode_literal "u64" (JValue.str "205000000n") = .ok (le_bytes 8 205000000) ∧
    normalize_literal_for_script_payload "u64" (JValue.str "205000000n") =
      .ok (JValue.str "205000000") ∧
    (∀ n : Int, normalize_numeric_literal (JValue.num n) = .ok (toString n)) ∧
    (∀ s : String, rust_trim s ≠ "" →
      normalize_numeric_literal (JValue.str s) = .ok (strip_suffix_n (rust_trim s))) ∧
    (∀ s : String, rust_trim s = "" →
      encode_literal "u64" (JValue.str s) = .error .emptyNumericString) := by
  refine ⟨by decide, by decide, by decide, fun n => rfl, ?_, ?_⟩
  · intro s h
    show (if rust_trim s = "" then
        (Except.error ComposeError.emptyNumericString : Except ComposeError String)
      else Except.ok (strip_suffix_n (rust_trim s))) = Except.ok (strip_suffix_n (rust_trim s))
    rw [if_neg h]
  · intro s h
    rw [encode_literal_u64, parse_number_uint_empty 64 "u64" h]
    rfl

/-- Witness for C3: the empty-numeric-string rejection applied to a
whitespace-only literal. -/
theorem claim_c3_witness :
    encode_literal "u64" (JValue.str "  ") = .error .emptyNumericString :=
  claim_c3_numeric_literal.2.2.2.2.2 "  " (by decide)

/-- C4: for every literal value, encoding at a (reference-stripped,
whitespace-normalized) parameter type of the form `0x1::object::Object<...>`
— whose type-argument part, being a Move type list, contains no `&` — is
identical, for both the VM-binary and the script-payload encoding, to
encoding at type `address`; a successfully parsed address serializes in the
script payload as its canonical hex literal; and the `"0x1"` example holds
concretely. -/
theorem claim_c4_object_encodes_as_address :
    (∀ (p : String) (v : JValue),
      is_object_type (strip_reference (normalize_type_name p)) = true →
      str_contains (strip_reference (normalize_type_name p)) '&' = false →
      encode_literal p v = encode_literal "address" v ∧
        normalize_literal_for_script_payload p v =
          normalize_literal_for_script_payload "address" v) ∧
    (∀ (v : JValue) (a : Nat), parse_address_literal v = .ok a →
      normalize_literal_for_script_payload "address" v =
        .ok (JValue.str (to_hex_literal a))) ∧
    encode_literal "0x1::object::Object<0x1::fungible_asset::Metadata>" (JValue.str "0x1") =
      encode_literal "address" (JValue.str "0x1") ∧
    normalize_literal_for_script_payload "0x1::object::Object<0x1::fungible_asset::Metadata>"
      (JValue.str "0x1") = .ok (JValue.str "0x1") := by
  refine ⟨?_, ?_, by decide, by decide⟩
  · intro p v hobj hamp
    exact ⟨by rw [encode_literal_object v hobj hamp, encode_literal_address],
      by rw [normalize_payload_object v hobj hamp, normalize_payload_address]⟩
  · intro v a h
    rw [normalize_payload_address, h]
    rfl

/-- Witness for C4: the generic object-as-address equation applied at a
`&`-referenced object parameter type and the address string `"0x1"`. -/
theorem claim_c4_witness :
    encode_literal "&0x1::object::Object<T0>" (JValue.str "0x1") =
      encode_literal "address" (JValue.str "0x1") :=
  (claim_c4_object_encodes_as_address.1 "&0x1::object::Object<T0>" (JValue.str "0x1")
    (by decide) (by decide)).1

/-- C5: whenever the resolved (substituted) parameter list of a step's callee
differs in length from the step's supplied argument list, the per-step
processing fails with the argument-count-mismatch error naming the step's
label and both counts. -/
theorem claim_c5_arg_count_mismatch
    (modules : List (ModuleId × ModuleInfo))
    (returns_by_label : List (String × List CallArgument)) (step : ResolvedStep)
    (mi : ModuleInfo) (ps : List String)
    (hmod : find_module modules step.function_id.module_id = some mi)
    (hres : resolve_function_params step mi = .ok ps)
    (hlen : ps.length ≠ step.args.length) :
    process_step modules returns_by_label step =
      .error (.argCountMismatch step.label ps.length step.args.length) := by
  simp only [process_step, hmod, hres]
  rw [if_pos hlen]

/-- Witness for C5: a one-parameter callee invoked with zero arguments. -/
theorem claim_c5_witness :
    process_step
      [({ address := 1, name := "m" }, { bytecode := [], functions := [("f", ["u64"])] })]
      []
      { label := "s",
        function_id := { module_id := { address := 1, name := "m" }, function := "f" },
        type_arguments := [], args := [] } =
      .error (.argCountMismatch "s" 1 0) :=
  claim_c5_arg_count_mismatch _ _ _
    { bytecode := [], functions := [("f", ["u64"])] } ["u64"]
    (by decide) (by decide) (by decide)

/-- C6: a `Ref` argument naming a label that no strictly earlier step's
trimmed label matches makes the whole step list unresolvable; when it is the
first failing check of its step, the error names the current step's label,
the argument position, and the referenced label; and the ordering check of a
step passes exactly when every `Ref` argument names an already-registered
label. -/
theorem claim_c6_ref_ordering :
    (∀ (l₁ : List StepInput) (s : StepInput) (l₂ : List StepInput)
       (rstep : String) (ri : Nat),
      ArgInput.ref rstep ri ∈ s.args →
      (∀ s' ∈ l₁, rust_trim s'.label ≠ rstep) →
      ∀ r, resolve_steps (l₁ ++ s :: l₂) ≠ .ok r) ∧
    (∀ (labels : List (String × Nat)) (acc : List ResolvedStep) (index : Nat)
       (step : StepInput) (rest : List StepInput) (ai : Nat) (rs : String),
      rust_trim step.label ≠ "" →
      assoc_find (rust_trim step.label) labels = none →
      (∃ fid, FunctionId.parse? step.function = some fid) →
      first_invalid_type_argument step.type_arguments = none →
      first_bad_ref labels 0 step.args = some (ai, rs) →
      resolve_steps_go labels acc index (step :: rest) =
        .error (.refNotPrevious (rust_trim step.label) ai rs)) ∧
    (∀ (labels : List (String × Nat)) (args : List ArgInput),
      first_bad_ref labels 0 args = none ↔
        ∀ rstep ri, ArgInput.ref rstep ri ∈ args →
          (assoc_find rstep labels).isSome = true) := by
  refine ⟨?_, ?_, ?_⟩
  · intro l₁ s l₂ rstep ri hin hno r hok
    unfold resolve_steps at hok
    rw [if_neg (by simp)] at hok
    rcases resolve_go_ok_refs l₁ s l₂ [] [] 0 r hok rstep ri hin with hsome | ⟨s', hs', he'⟩
    · cases hsome
    · exact hno s' hs' he'
  · intro labels acc index step rest ai rs h1 h2 h3 h4 h5
    obtain ⟨fid, hfid⟩ := h3
    unfold resolve_steps_go
    rw [if_neg h1, h2]
    simp only [Option.isSome_none, Bool.false_eq_true, if_false]
    rw [hfid, h4, h5]
  · intro labels args
    exact first_bad_ref_none_iff labels args 0

/-- Witness for C6: a single step whose first argument is a self/unknown
reference is rejected naming the step, position 0, and the label. -/
theorem claim_c6_witness :
    resolve_steps_go [] [] 0
      [{ label := "b", function := "0x1::m::f", type_arguments := [],
         args := [ArgInput.ref "a" 0] }] =
      .error (.refNotPrevious "b" 0 "a") :=
  (claim_c6_ref_ordering.2.1 [] [] 0
    { label := "b", function := "0x1::m::f", type_arguments := [],
      args := [ArgInput.ref "a" 0] } [] 0 "a" (by decide) (by decide)
    ⟨{ module_id := { address := 1, name := "m" }, function := "f" }, by decide⟩
    (by decide) (by decide)).trans (by decide)

/-- C7: a step whose label trims to the empty string makes the step list
unresolvable; two steps whose trimmed labels coincide (in particular labels
differing only in surrounding whitespace) make it unresolvable regardless of
their positions; and when the duplicate check is reached it fails with the
duplicate-label error naming the (trimmed) label. -/
theorem claim_c7_labels :
    (∀ (steps : List StepInput) (s : StepInput), s ∈ steps → rust_trim s.label = "" →
      ∀ r, resolve_steps steps ≠ .ok r) ∧
    (∀ (l₁ : List StepInput) (s : StepInput) (l₂ : List StepInput) (s' : StepInput)
       (l₃ : List StepInput), rust_trim s'.label = rust_trim s.label →
      ∀ r, resolve_steps (l₁ ++ s :: l₂ ++ s' :: l₃) ≠ .ok r) ∧
    (∀ (labels : List (String × Nat)) (acc : List ResolvedStep) (index : Nat)
       (step : StepInput) (rest : List StepInput) (v : Nat),
      rust_trim step.label ≠ "" →
      assoc_find (rust_trim step.label) labels = some v →
      resolve_steps_go labels acc index (step :: rest) =
        .error (.duplicateLabel (rust_trim step.label))) := by
  refine ⟨?_, ?_, ?_⟩
  · intro steps s hs hempty r hok
    unfold resolve_steps at hok
    rw [if_neg (by rintro he; rw [List.isEmpty_iff.mp he] at hs; cases hs)] at hok
    exact (resolve_go_ok_labels steps [] [] 0 r hok s hs).1 hempty
  · intro l₁ s l₂ s' l₃ hdup r hok
    unfold resolve_steps at hok
    rw [if_neg (by simp)] at hok
    have hpw := resolve_go_ok_pairwise _ [] [] 0 r hok
    have hsplit := List.pairwise_append.mp hpw
    have hrel := hsplit.2.2 s (by
        refine List.mem_append_right l₁ ?_
        exact List.mem_cons_self _ _)
      s' (List.mem_cons_self _ _)
    exact hrel hdup.symm
  · intro labels acc index step rest v h1 h2
    unfold resolve_steps_go
    rw [if_neg h1, h2]
    rfl

/-- Witness for C7: a label duplicating an already-registered label up to
whitespace is rejected with the duplicate-label error. -/
theorem claim_c7_witness :
    resolve_steps_go [("a", 0)] [] 1
      [{ label := " a ", function := "0x1::m::f", type_arguments := [], args := [] }] =
      .error (.duplicateLabel "a") :=
  (claim_c7_labels.2.2 [("a", 0)] [] 1
    { label := " a ", function := "0x1::m::f", type_arguments := [], args := [] } [] 0
    (by decide) (by decide)).trans (by decide)

/-- C8 (amended): the required-module collection computes exactly the set of
every step's function module plus every struct-shaped component of every
parsed type argument's pre-order traversal, deduplicated; the iteration
order is deterministic, but it is the ascending `(address, name)` order of
the `BTreeSet`, not the insertion order of first discovery. -/
theorem claim_c8_sorted_collection (steps : List ResolvedStep)
    (h : ∀ step ∈ steps, ∀ ta ∈ step.type_arguments, (parse_type_tag ta).isSome = true) :
    ∃ mods, collect_required_modules steps = .ok mods ∧
      (∀ x, x ∈ mods ↔ x ∈ spec_discovery_walk steps) ∧
      List.Pairwise (fun a b => module_lt a b = true) mods := by
  obtain ⟨res, h1, h2, h3⟩ := collect_go_ok steps [] h
  refine ⟨res, h1, ?_, h3 List.Pairwise.nil⟩
  intro x
  rw [h2 x]
  simp

/-- Witness for C8 (amended): a concrete step with a struct type argument. -/
theorem claim_c8_witness :
    ∃ mods, collect_required_modules
        [{ label := "s",
           function_id := { module_id := { address := 2, name := "b" }, function := "f" },
           type_arguments := ["0x1::aptos_coin::AptosCoin"], args := [] }] = .ok mods ∧
      (∀ x, x ∈ mods ↔ x ∈ spec_discovery_walk
        [{ label := "s",
           function_id := { module_id := { address := 2, name := "b" }, function := "f" },
           type_arguments := ["0x1::aptos_coin::AptosCoin"], args := [] }]) ∧
      List.Pairwise (fun a b => module_lt a b = true) mods :=
  claim_c8_sorted_collection _ (by decide)

/-- C8 counterexample: two steps discovering modules `0x2::b` then `0x1::a`;
the collection iterates in ascending module order `[0x1::a, 0x2::b]`, which
differs from the insertion order of first discovery `[0x2::b, 0x1::a]`
claimed by the spec. -/
theorem claim_c8_counterexample :
    collect_required_modules
        [{ label := "s1",
           function_id := { module_id := { address := 2, name := "b" }, function := "f" },
           type_arguments := [], args := [] },
         { label := "s2",
           function_id := { module_id := { address := 1, name := "a" }, function := "g" },
           type_arguments := [], args := [] }] =
      .ok [{ address := 1, name := "a" }, { address := 2, name := "b" }] ∧
    spec_first_discovery_order
        [{ label := "s1",
           function_id := { module_id := { address := 2, name := "b" }, function := "f" },
           type_arguments := [], args := [] },
         { label := "s2",
           function_id := { module_id := { address := 1, name := "a" }, function := "g" },
           type_arguments := [], args := [] }] =
      [{ address := 2, name := "b" }, { address := 1, name := "a" }] ∧
    ([{ address := 1, name := "a" }, { address := 2, name := "b" }] : List ModuleId) ≠
      [{ address := 2, name := "b" }, { address := 1, name := "a" }] :=
  ⟨by decide, by decide, by decide⟩

/-- C9: any JSON document whose top level is not an array is rejected with
the schema error naming the expected shape; a bare top-level array of step
objects decodes (concretely exercising the `type_arguments` alias and the
tagged argument union). -/
theorem claim_c9_payload_shape :
    (∀ raw : JValue, (∀ items, raw ≠ .arr items) →
      parse_steps_payload raw = .error .invalidPayloadShape) ∧
    parse_steps_payload (JValue.arr [JValue.obj [("label", JValue.str "s1"),
      ("function", JValue.str "0x1::coin::transfer"),
      ("type_arguments", JValue.arr [JValue.str "0x1::aptos_coin::AptosCoin"]),
      ("args", JValue.arr [JValue.obj [("kind", JValue.str "signer")],
        JValue.obj [("kind", JValue.str "literal"), ("value", JValue.str "1")]])]]) =
      .ok [{ label := "s1", function := "0x1::coin::transfer",
             type_arguments := ["0x1::aptos_coin::AptosCoin"],
             args := [ArgInput.signer, ArgInput.literal (JValue.str "1")] }] := by
  constructor
  · intro raw h
    cases raw with
    | arr items => exact absurd rfl (h items)
    | null => rfl
    | bool b => rfl
    | num n => rfl
    | str s => rfl
    | obj fields => rfl
  · decide

/-- Witness for C9: the legacy `{"steps": [...]}` object shape is rejected. -/
theorem claim_c9_witness :
    parse_steps_payload (JValue.obj [("steps", JValue.arr [])]) =
      .error .invalidPayloadShape :=
  claim_c9_payload_shape.1 (JValue.obj [("steps", JValue.arr [])])
    (fun _ h => JValue.noConfusion h)

/-- C10: the empty top-level array `[]` satisfies the parser contract and
decodes to zero steps, but step resolution rejects it with the fatal
empty-payload error — a requirement the spec does not state. -/
theorem claim_c10_empty_payload :
    parse_steps_payload (JValue.arr []) = .ok [] ∧
      resolve_steps [] = .error .emptyPayload :=
  ⟨rfl, rfl⟩

end AptosScriptCompose
